import Mathlib

/-!
Verification of the godns DNS server core (wire codec, key-tag checksum,
DNSSEC response dispatch) against its natural-language specification.

Strings of the Go source are modelled as lists of byte values (`List Nat`,
each element is one byte of the Go string).  Go's byte casts appear as
`% 256`, 16-bit casts as `% 65536`, and 32-bit accumulators as
`% 4294967296`.  A Go function that can panic at runtime (out-of-range
index, nil-slice index) is modelled with an explicit `crash`-like outcome
(`Option.none` or a dedicated constructor), distinct from the typed
`error` return values of the source.
-/

namespace GoDNS

/-- Byte value of the label separator character, the dot. -/
def dot : Nat := 46

/-- Go slice expression `l[a:b]` (for in-range `a ≤ b`): the bytes of `l`
from position `a` (inclusive) to `b` (exclusive). -/
def sliceL (l : List Nat) (a b : Nat) : List Nat :=
  (l.drop a).take (b - a)

/-- Go's builtin `copy(dst[p:], src)`: writes `src` into `dst` starting at
position `p`, truncated so the length of `dst` never changes, and never
failing (Go `copy` copies `min(len(src), len(dst)-p)` bytes). -/
def goCopy (dst : List Nat) (p : Nat) (src : List Nat) : List Nat :=
  dst.take p ++ src.take (dst.length - p) ++ dst.drop (p + src.length)

/-- GetDomainNameWireLen (src/dns/standard.go:39-49).  The source
unconditionally reads `(*name)[nameLength-1]`; on the empty string this
is an out-of-range access, modelled by `none`. -/
def GetDomainNameWireLen (name : List Nat) : Option Nat :=
  match name.getLast? with
  | none => none
  | some b =>
    if b = dot then
      if name.length = 1 then some 1 else some (name.length + 1)
    else some (name.length + 2)

/-- Loop body shared verbatim by EncodeDomainName (standard.go:63-72) and
EncodeDomainNameToBuffer (standard.go:98-107): `for index := range *name`,
on a separator write the pending label length at `index-labelLength` and
copy the label bytes after it, otherwise grow the pending label.  The
first argument is the whole name (the copies read from it), the second the
still unprocessed suffix `name.drop i`. -/
def encodeLoopGo (name : List Nat) : List Nat → Nat → Nat → List Nat → List Nat × Nat
  | [], _, labelLength, byteArray => (byteArray, labelLength)
  | c :: rest, index, labelLength, byteArray =>
    if c = dot then
      encodeLoopGo name rest (index + 1) 0
        (goCopy ((byteArray.set (index - labelLength) (labelLength % 256)))
          (index - labelLength + 1) (sliceL name (index - labelLength) index))
    else
      encodeLoopGo name rest (index + 1) (labelLength + 1) byteArray

/-- EncodeDomainName (src/dns/standard.go:53-78).  Allocates a zeroed
array of the wire length, runs the label loop, then flushes the trailing
label if the name did not end in a separator.  `none` models the panic
inherited from `GetDomainNameWireLen` on the empty name. -/
def EncodeDomainName (name : List Nat) : Option (List Nat) :=
  match GetDomainNameWireLen name with
  | none => none
  | some encodedLen =>
    let byteArray := List.replicate encodedLen 0
    if encodedLen = 1 then
      some (byteArray.set 0 0)
    else
      let p := encodeLoopGo name name 0 0 byteArray
      if p.2 ≠ 0 then
        some (goCopy ((p.1.set (encodedLen - p.2 - 2) (p.2 % 256)))
          (encodedLen - p.2 - 1) (name.drop (name.length - p.2)))
      else
        some p.1

/-- Outcome of EncodeDomainNameToBuffer: the returned length together with
the buffer's final contents, the typed "buffer is too small" error
(carrying the untouched buffer), or a runtime panic. -/
inductive EncToBufResult
  | ok (len : Nat) (buffer : List Nat)
  | tooSmall (buffer : List Nat)
  | crash
  deriving Repr, DecidableEq

/-- EncodeDomainNameToBuffer (src/dns/standard.go:85-113): same loop as
EncodeDomainName but writing into the caller's buffer, after a size check
that returns the typed error before anything is written. -/
def EncodeDomainNameToBuffer (name buffer : List Nat) : EncToBufResult :=
  match GetDomainNameWireLen name with
  | none => .crash
  | some encodedLen =>
    if buffer.length < encodedLen then
      .tooSmall buffer
    else if encodedLen = 1 then
      .ok 1 (buffer.set 0 0)
    else
      let p := encodeLoopGo name name 0 0 buffer
      if p.2 ≠ 0 then
        .ok encodedLen (goCopy ((p.1.set (encodedLen - p.2 - 2) (p.2 % 256)))
          (encodedLen - p.2 - 1) (name.drop (name.length - p.2)))
      else
        .ok encodedLen p.1

/-- Loop of DecodeDomainName (src/dns/standard.go:125-129): read a length
byte, stop at 0x00, append the label bytes and a separator, advance past
the label.  Every array access of the source is modelled by `get?`; an
out-of-range access (the source has no bounds checks here) is `none`.
The `fuel` argument only makes the recursion structural; the loop always
advances by at least one byte, so `data.length + 1` fuel suffices. -/
def decodeLoopGo (data : List Nat) : Nat → Nat → List Nat → Option (List Nat × Nat)
  | 0, _, _ => none
  | fuel + 1, nameLength, name =>
    match data.get? nameLength with
    | none => none
    | some b =>
      if b = 0 then some (name, nameLength)
      else if nameLength + 1 + b ≤ data.length then
        decodeLoopGo data fuel (nameLength + b + 1)
          (name ++ sliceL data (nameLength + 1) (nameLength + 1 + b) ++ [dot])
      else none

/-- DecodeDomainName (src/dns/standard.go:122-136): decode a pointerless
label sequence; strip the trailing separator, or return "." for the root.
`none` models the panics of the unchecked source (missing terminator,
truncated label bytes). -/
def DecodeDomainName (data : List Nat) : Option (List Nat) :=
  match decodeLoopGo data (data.length + 1) 0 [] with
  | none => none
  | some (name, nameLength) =>
    if nameLength ≠ 0 then
      if name = [] then none else some name.dropLast
    else some [dot]

/-- Outcome of DecodeDomainNameFromBuffer: the decoded name and next
offset, the typed "buffer is too small" error return, a runtime panic
(out-of-range access), or exhaustion of the fuel that stands in for Go's
unbounded recursion through compression pointers. -/
inductive DecFromBufResult
  | ok (name : List Nat) (off : Nat)
  | tooSmall
  | crash
  | fuelOut
  deriving Repr, DecidableEq

mutual

/-- DecodeDomainNameFromBuffer (src/dns/standard.go:143-186): size-check
the first byte, run the label/pointer loop, then strip the trailing
separator (or return "." at the root).  The fuel bounds both the loop and
the recursion through pointers; any concrete run of the source that
terminates is reproduced with enough fuel. -/
def DecodeDomainNameFromBuffer : Nat → List Nat → Nat → DecFromBufResult
  | 0, _, _ => .fuelOut
  | fuel + 1, data, offset =>
    if data.length < offset + 1 then .tooSmall
    else
      match decodeFromBufferLoop fuel data offset 0 [] with
      | .inl r => r
      | .inr (name, nameLength) =>
        if nameLength ≠ 0 then
          if name = [] then .crash
          else .ok name.dropLast (offset + nameLength + 1)
        else .ok [dot] (offset + nameLength + 1)

/-- Loop of DecodeDomainNameFromBuffer (standard.go:154-178).  A length
byte `≥ 0xC0` is a compression pointer: the source reads its second byte
`data[offset+nameLength+1]` WITHOUT any bounds check (out of range is a
panic, modelled `.crash`), recurses at the 14-bit target, appends the
result and breaks.  An ordinary label is bounds-checked (typed error) and
appended with a separator.  The loop-condition read of
`data[offset+nameLength]` is also unchecked in the source. -/
def decodeFromBufferLoop : Nat → List Nat → Nat → Nat → List Nat →
    Sum DecFromBufResult (List Nat × Nat)
  | 0, _, _, _, _ => .inl .fuelOut
  | fuel + 1, data, offset, nameLength, name =>
    match data.get? (offset + nameLength) with
    | none => .inl .crash
    | some b =>
      if b = 0 then .inr (name, nameLength)
      else if 192 ≤ b then
        match data.get? (offset + nameLength + 1) with
        | none => .inl .crash
        | some b2 =>
          let pointer := (b * 256 + b2) % 16384
          match DecodeDomainNameFromBuffer fuel data pointer with
          | .ok decodedName _ => .inr (name ++ decodedName, nameLength + 1)
          | .tooSmall => .inl .tooSmall
          | .crash => .inl .crash
          | .fuelOut => .inl .fuelOut
      else if data.length < offset + nameLength + b + 1 then .inl .tooSmall
      else
        decodeFromBufferLoop fuel data offset (nameLength + b + 1)
          (name ++ sliceL data (offset + nameLength + 1) (offset + nameLength + 1 + b) ++ [dot])

end

/-- GetCharacterStrWireLen (src/dns/standard.go:188-196). -/
def GetCharacterStrWireLen (cStr : List Nat) : Nat :=
  if cStr.length = 0 then 1
  else cStr.length + (cStr.length + 254) / 255

/-- Loop of EncodeCharacterStr (standard.go:207-218): emit full 255-byte
chunks while more than 255 bytes remain, then the final chunk with its
length byte.  The source writes at the monotone output cursor `enTvlr` of
a preallocated array, which is exactly sequential emission; `fuel` makes
the recursion structural (`cStr.length + 1` always suffices since each
iteration advances `rawTvlr` by 255). -/
def encodeCharLoopGo (cStr : List Nat) : Nat → Nat → List Nat
  | 0, _ => []
  | fuel + 1, rawTvlr =>
    if rawTvlr + 255 < cStr.length then
      255 :: (sliceL cStr rawTvlr (rawTvlr + 255)) ++ encodeCharLoopGo cStr fuel (rawTvlr + 255)
    else if rawTvlr < cStr.length then
      ((cStr.length - rawTvlr) % 256) :: cStr.drop rawTvlr
    else []

/-- EncodeCharacterStr (src/dns/standard.go:198-220). -/
def EncodeCharacterStr (cStr : List Nat) : List Nat :=
  if cStr.length = 0 then [0]
  else encodeCharLoopGo cStr (cStr.length + 1) 0

/-- Chunking of a character-string as the specification words it: each
chunk of at most 255 bytes is prefixed by its own length byte (the empty
string is the single chunk `[0x00]`).  Stated from the spec for the
refinement proof against `EncodeCharacterStr`; fuel as above. -/
def chunkEncodeSpec : Nat → List Nat → List Nat
  | 0, _ => []
  | fuel + 1, s =>
    if s.length ≤ 255 then s.length :: s
    else 255 :: s.take 255 ++ chunkEncodeSpec fuel (s.drop 255)

/-- Loop of CalculateKeyTag (src/parser_test.go:228-234): bytes at even
indices are added shifted by 8 bits, odd indices are added as-is, into a
32-bit accumulator. -/
def keyTagLoop : List Nat → Nat → Nat → Nat
  | [], _, ac => ac
  | b :: rest, i, ac =>
    keyTagLoop rest (i + 1)
      (if i % 2 = 1 then (ac + b) % 4294967296 else (ac + b * 256) % 4294967296)

/-- CalculateKeyTag (src/parser_test.go:225-237), taken over the DNSKEY
RDATA's encoded bytes (the `key.Encode()` step lives in the dns package):
per-byte accumulation, one fold of the high 16 bits, low 16 bits out. -/
def CalculateKeyTag (rdata : List Nat) : Nat :=
  let ac := keyTagLoop rdata 0 0
  let ac := (ac + ac / 65536 % 65536) % 4294967296
  ac % 65536

/-- Big-endian 16-bit words of a byte sequence as the specification words
it: bytes are paired, an odd trailing byte is the high byte of a final
word with an implicit zero low byte.  Stated from the spec for the
refinement proof against `CalculateKeyTag`. -/
def keyTagWordsSpec : List Nat → List Nat
  | [] => []
  | [b] => [b * 256]
  | b :: c :: rest => (b * 256 + c) :: keyTagWordsSpec rest

/-- Key tag as the specification words it: sum all big-endian words into
a 32-bit accumulator, fold the high 16 bits into the low 16 bits exactly
once, return the low 16 bits. -/
def keyTagSpec (rdata : List Nat) : Nat :=
  let s := (keyTagWordsSpec rdata).sum % 4294967296
  let t := (s + s / 65536 % 65536) % 4294967296
  t % 65536

/-- Hash functions named by the RSA signing variants. -/
inductive HashFn
  | sha1
  | sha256
  | sha384
  | sha512
  deriving Repr, DecidableEq

/-- Digest size in bytes of each hash function (Go `crypto.Hash.Size()`):
sha1.Sum is 20 bytes, sha256.Sum256 is 32, sha512.Sum384 is 48,
sha512.Sum512 is 64. -/
def hashSize : HashFn → Nat
  | .sha1 => 20
  | .sha256 => 32
  | .sha384 => 48
  | .sha512 => 64

/-- Symbolic digest value: which hash function was applied to which data.
The RSA signing variants are verified at this symbolic level; the claims
concern only which hash is computed and which identifier is passed. -/
structure DigestExpr where
  hash : HashFn
  data : List Nat
  deriving Repr, DecidableEq

/-- Outcome of an RSA signing call: a symbolic PKCS#1 v1.5 signature
recording the hash identifier, key and digest that produced it, or the
error return of the Go function. -/
inductive SigResult
  | ok (pkcs1Hash : HashFn) (privKey : List Nat) (digest : DigestExpr)
  | err
  deriving Repr, DecidableEq

/-- Go's `rsa.SignPKCS1v15(nil, pKey, hash, hashed)`: the standard
library rejects a `hashed` argument whose length differs from
`hash.Size()` (returning the "input must be hashed message" error), and
otherwise produces a PKCS#1 v1.5 signature carrying `hash`'s DigestInfo
identifier. -/
def rsaSignPKCS1v15 (hash : HashFn) (privKey : List Nat) (digest : DigestExpr) : SigResult :=
  if hashSize digest.hash = hashSize hash then .ok hash privKey digest else .err

/-- RSASHA1.Sign (src/parser_test.go:426-443): `digest := sha1.Sum(data)`
followed by `rsa.SignPKCS1v15(nil, pKey, crypto.SHA256, digest[:])` —
the digest is SHA-1 but the identifier passed is crypto.SHA256.  Key
parsing is assumed to succeed (the parse step is not modelled). -/
def RSASHA1Sign (data privKey : List Nat) : SigResult :=
  rsaSignPKCS1v15 .sha256 privKey ⟨.sha1, data⟩

/-- RSASHA256.Sign (src/parser_test.go:462-479): `sha256.Sum256(data)`
then `rsa.SignPKCS1v15(nil, pKey, crypto.SHA256, digest[:])`. -/
def RSASHA256Sign (data privKey : List Nat) : SigResult :=
  rsaSignPKCS1v15 .sha256 privKey ⟨.sha256, data⟩

/-- RSASHA512.Sign (src/parser_test.go:498-512): `sha512.Sum512(data)`
then `rsa.SignPKCS1v15(nil, pKey, crypto.SHA512, digest[:])`. -/
def RSASHA512Sign (data privKey : List Nat) : SigResult :=
  rsaSignPKCS1v15 .sha512 privKey ⟨.sha512, data⟩

/-! DNSSEC responser model (src/responser.go).  Record-type and class
codes, the DNSKEY flag values and the RDATA layouts live in the dns
package, which is outside src/; they are modelled from the spec's
"standard DNS record layout" with the standard IANA values. -/

/-- Modelled from the spec: standard record-type code for A (dns package
constant `DNSRRTypeA`, not in src). -/
def DNSRRTypeA : Nat := 1

/-- Modelled from the spec: standard record-type code for DS. -/
def DNSRRTypeDS : Nat := 43

/-- Modelled from the spec: standard record-type code for RRSIG. -/
def DNSRRTypeRRSIG : Nat := 46

/-- Modelled from the spec: standard record-type code for DNSKEY. -/
def DNSRRTypeDNSKEY : Nat := 48

/-- Modelled from the spec: standard class code for IN. -/
def DNSClassIN : Nat := 1

/-- Modelled from the spec: no-error response code. -/
def DNSResponseCodeNoErr : Nat := 0

/-- Modelled from the spec: DNSKEY flags value for a zone-signing key. -/
def DNSKEYFlagZoneKey : Nat := 256

/-- Modelled from the spec: DNSKEY flags value for a key-signing key
(zone key + secure entry point). -/
def DNSKEYFlagSecureEntryPoint : Nat := 257

/-- Modelled from the spec: DNSSEC digest-type codes SHA-1, SHA-256,
SHA-384 accepted by the DS generator. -/
def DNSSECDigestTypeSHA1 : Nat := 1

/-- Modelled from the spec: digest-type code for SHA-256. -/
def DNSSECDigestTypeSHA256 : Nat := 2

/-- Modelled from the spec: digest-type code for SHA-384. -/
def DNSSECDigestTypeSHA384 : Nat := 4

/-- DNSKEY RDATA (dns package `DNSRDATADNSKEY`): flags, protocol,
algorithm, public key bytes. -/
structure DNSRDATADNSKEY where
  Flags : Nat
  Protocol : Nat
  Algorithm : Nat
  PublicKey : List Nat
  deriving Repr, DecidableEq

/-- Modelled from the spec: the standard DNSKEY RDATA wire layout
(dns package `DNSRDATADNSKEY.Encode`, not in src): 16-bit flags,
protocol byte, algorithm byte, then the public key bytes. -/
def dnskeyEncode (k : DNSRDATADNSKEY) : List Nat :=
  [k.Flags / 256 % 256, k.Flags % 256, k.Protocol % 256, k.Algorithm % 256] ++ k.PublicKey

/-- RRSIG RDATA (dns package `DNSRDATARRSIG`).  `TypeCovered` is the
record-type code of the signed set. -/
structure DNSRDATARRSIG where
  TypeCovered : Nat
  Algorithm : Nat
  Labels : Nat
  OriginalTTL : Nat
  Expiration : Nat
  Inception : Nat
  KeyTag : Nat
  SignerName : List Nat
  Signature : List Nat
  deriving Repr, DecidableEq

/-- DS RDATA (dns package `DNSRDATADS`). -/
structure DNSRDATADS where
  KeyTag : Nat
  Algorithm : Nat
  DigestType : Nat
  Digest : List Nat
  deriving Repr, DecidableEq

/-- Type-tagged RDATA payload of a resource record (the Go interface
`DNSRDATA`), restricted to the variants the DNSSEC responser produces. -/
inductive RDataV
  | a (Address : List Nat)
  | dnskey (k : DNSRDATADNSKEY)
  | rrsig (r : DNSRDATARRSIG)
  | ds (d : DNSRDATADS)
  deriving Repr, DecidableEq

/-- Modelled from the spec: RDATA byte lengths per the standard payload
layouts (dns package `Size()` methods, not in src).  The RRSIG size uses
the signer name's wire length, whose computation panics on the empty
name, hence the `Option`. -/
def rdataSize : RDataV → Option Nat
  | .a _ => some 4
  | .dnskey k => some (4 + k.PublicKey.length)
  | .rrsig r => (GetDomainNameWireLen r.SignerName).map (fun w => 18 + w + r.Signature.length)
  | .ds d => some (4 + d.Digest.length)

/-- Resource record (dns package `DNSResourceRecord`).  The Go fields
`Type` and `Class` are rendered `Typ` and `Cls` (both Go names are Lean
keywords). -/
structure DNSResourceRecord where
  Name : List Nat
  Typ : Nat
  Cls : Nat
  TTL : Nat
  RDLen : Nat
  RData : RDataV
  deriving Repr, DecidableEq

/-- Question-section entry (dns package `DNSQuestion`). -/
structure DNSQuestion where
  Name : List Nat
  Typ : Nat
  Cls : Nat
  deriving Repr, DecidableEq

/-- Message header (dns package `DNSHeader`). -/
structure DNSHeader where
  ID : Nat
  QR : Bool
  OpCode : Nat
  AA : Bool
  TC : Bool
  RD : Bool
  RA : Bool
  Z : Nat
  RCode : Nat
  QDCount : Nat
  ANCount : Nat
  NSCount : Nat
  ARCount : Nat
  deriving Repr, DecidableEq

/-- DNS message (dns package `DNSMessage`). -/
structure DNSMessage where
  Header : DNSHeader
  Question : List DNSQuestion
  Answer : List DNSResourceRecord
  Authority : List DNSResourceRecord
  Additional : List DNSResourceRecord
  deriving Repr, DecidableEq

/-- Parsed query handed to a responser (godns `QueryInfo`). -/
structure QueryInfo where
  MAC : List Nat
  IP : List Nat
  Port : Nat
  DNS : DNSMessage
  deriving Repr, DecidableEq

/-- Response returned by a responser (godns `ResponseInfo`). -/
structure ResponseInfo where
  MAC : List Nat
  IP : List Nat
  Port : Nat
  DNS : DNSMessage
  deriving Repr, DecidableEq

/-- Per-zone key material (responser.go:158-164). -/
structure DNSSECMaterial where
  KSKTag : Nat
  ZSKTag : Nat
  PrivateKSK : List Nat
  PrivateZSK : List Nat
  DNSKEYRespSec : List DNSResourceRecord
  deriving Repr, DecidableEq

/-- Zero value of `DNSSECMaterial`, what a Go map read returns for a
missing zone name. -/
def zeroDNSSECMaterial : DNSSECMaterial :=
  ⟨0, 0, [], [], []⟩

/-- DNSSEC algorithm/digest configuration (responser.go:153-156). -/
structure DNSSECConfig where
  dAlgo : Nat
  dType : Nat
  deriving Repr, DecidableEq

/-- Modelled from the spec: `dns.CountDomainNameLabels` (dns package, not
in src) counts the labels of a textual name. -/
def CountDomainNameLabels (name : List Nat) : Nat :=
  ((name.splitOn dot).filter (fun l => l ≠ [])).length

/-- Modelled from the spec: `dns.GetUpperDomainName` (dns package, not in
src) returns the parent zone name — the name with its first label
removed, or "." when nothing follows the first separator. -/
def GetUpperDomainName (name : List Nat) : List Nat :=
  match name.dropWhile (fun c => c ≠ dot) with
  | [] => [dot]
  | _ :: rest => if rest = [] then [dot] else rest

/-- Environment of the stateful responser: per-materialization fresh key
bytes and clock reading. -/
structure KeyGenOut where
  kskPriv : List Nat
  kskPub : List Nat
  zskPriv : List Nat
  zskPub : List Nat
  now : Nat
  deriving Repr, DecidableEq

/-- Oracle for the effects the responser performs through collaborators:
`gen n` is the randomness and clock of the n-th key materialization
(GenerateDNSKEY's key generation plus time.Now), `sign` is the
plaintext-serialization-and-sign step of GenerateRRSIG (the byte-level
RRSIG/RR serialization lives in the dns package, outside src, and the
signing itself is cryptographic; `none` is the signing error on which the
source panics), `digest` is the hash step of GenerateDS, and `qnow` the
clock reading during Response. -/
structure CryptoEnv where
  gen : Nat → KeyGenOut
  sign : List DNSResourceRecord → Nat → Nat → Nat → Nat → List Nat → List Nat → Option (List Nat)
  digest : Nat → List Nat → List Nat
  qnow : Nat

/-- GenerateDNSKEY (src/parser_test.go:247-256) with the generated key
pair supplied by the oracle: wraps the public key in a DNSKEY RDATA with
protocol 3 and returns the private key bytes alongside. -/
def GenerateDNSKEY (priv pub : List Nat) (algo flag : Nat) : DNSRDATADNSKEY × List Nat :=
  (⟨flag, 3, algo, pub⟩, priv)

/-- GenerateRRSIG (src/parser_test.go:274-346): type-covered, label
count and original TTL are copied from the first record of the set (an
empty set would panic on `rrSet[0]`, modelled `none`); the signature is
the oracle's answer for the serialized plaintext, `none` being the
signing failure on which the source panics. -/
def GenerateRRSIG (env : CryptoEnv) (rrSet : List DNSResourceRecord)
    (algo expiration inception keyTag : Nat) (signerName privKey : List Nat) :
    Option DNSRDATARRSIG :=
  match rrSet with
  | [] => none
  | rr0 :: _ =>
    match env.sign rrSet algo expiration inception keyTag signerName privKey with
    | none => none
    | some signature =>
      some ⟨rr0.Typ, algo, CountDomainNameLabels rr0.Name, rr0.TTL,
        expiration, inception, keyTag, signerName, signature⟩

/-- GenerateDS (src/parser_test.go:358-396): key tag of the input key,
plaintext = owner name wire form followed by the key's wire form (the
source writes both into a zeroed buffer of exactly that size), digest by
the chosen algorithm (an unsupported digest type panics, modelled
`none`; the name encoding panics on the empty owner name). -/
def GenerateDS (env : CryptoEnv) (oName : List Nat) (kRDATA : DNSRDATADNSKEY)
    (dType : Nat) : Option DNSRDATADS :=
  let keyTag := CalculateKeyTag (dnskeyEncode kRDATA)
  match EncodeDomainName oName with
  | none => none
  | some enc =>
    let pText := enc ++ dnskeyEncode kRDATA
    if dType = DNSSECDigestTypeSHA1 ∨ dType = DNSSECDigestTypeSHA256 ∨
        dType = DNSSECDigestTypeSHA384 then
      some ⟨keyTag, kRDATA.Algorithm, dType, env.digest dType pText⟩
    else none

/-- CreateDNSSECMat (src/responser.go:166-220): generate a KSK and a ZSK,
wrap them as DNSKEY records of the zone, self-sign the two-record key set
with the KSK over a validity window of now−1h to now+23h, and return the
material (tags, private keys, precomputed 3-record answer section).
`r` indexes the oracle's per-materialization randomness. -/
def CreateDNSSECMat (env : CryptoEnv) (r : Nat) (conf : DNSSECConfig)
    (zoneName : List Nat) : Option DNSSECMaterial :=
  let g := env.gen r
  let kskPair := GenerateDNSKEY g.kskPriv g.kskPub conf.dAlgo DNSKEYFlagSecureEntryPoint
  let zskPair := GenerateDNSKEY g.zskPriv g.zskPub conf.dAlgo DNSKEYFlagZoneKey
  let pubKskRDATA := kskPair.1
  let privKskBytes := kskPair.2
  let pubZskRDATA := zskPair.1
  let privZskBytes := zskPair.2
  let pubZskRR : DNSResourceRecord :=
    ⟨zoneName, DNSRRTypeDNSKEY, DNSClassIN, 86400,
      (4 + pubZskRDATA.PublicKey.length) % 65536, .dnskey pubZskRDATA⟩
  let pubKskRR : DNSResourceRecord :=
    ⟨zoneName, DNSRRTypeDNSKEY, DNSClassIN, 86400,
      (4 + pubKskRDATA.PublicKey.length) % 65536, .dnskey pubKskRDATA⟩
  match GenerateRRSIG env [pubZskRR, pubKskRR] conf.dAlgo
      ((g.now + 86400 - 3600) % 4294967296) ((g.now - 3600) % 4294967296)
      (CalculateKeyTag (dnskeyEncode pubKskRDATA) % 65536) zoneName privKskBytes with
  | none => none
  | some keySetSig =>
    match rdataSize (.rrsig keySetSig) with
    | none => none
    | some sz =>
      let sigRec : DNSResourceRecord :=
        ⟨zoneName, DNSRRTypeRRSIG, DNSClassIN, 86400, sz % 65536, .rrsig keySetSig⟩
      some ⟨CalculateKeyTag (dnskeyEncode pubKskRDATA),
        CalculateKeyTag (dnskeyEncode pubZskRDATA),
        privKskBytes, privZskBytes, [pubZskRR, pubKskRR, sigRec]⟩

/-- Configuration of the DNSSEC responser (responser.go:142-151); the
zone-material map is threaded separately as mutable state. -/
structure DNSSECResponserConf where
  ServerIP : List Nat
  DefaultResp : ResponseInfo
  DNSSECConf : DNSSECConfig

/-- Mutable state of the DNSSEC responser: the shared zone-material map
plus a counter of materializations performed (the cursor into the
oracle's randomness stream). -/
structure DNSSECState where
  map : List Nat → Option DNSSECMaterial
  ctr : Nat

/-- InitResp of DNSSECResponser (src/responser.go:322-337): start from
the configured default response, take addressing and transaction id /
question count / question section from the query, clear all record
sections. -/
def InitResp (d : DNSSECResponserConf) (qInfo : QueryInfo) : ResponseInfo :=
  { MAC := qInfo.MAC
    IP := qInfo.IP
    Port := qInfo.Port
    DNS :=
      { Header :=
          { d.DefaultResp.DNS.Header with
            ID := qInfo.DNS.Header.ID
            QDCount := qInfo.DNS.Header.QDCount }
        Question := qInfo.DNS.Question
        Answer := []
        Authority := []
        Additional := [] } }

/-- Response of DNSSECResponser (src/responser.go:223-319).  DNSKEY:
get-or-create the zone's material and answer with its cached 3-record
section.  DS: read the queried name's material (a missing entry is the
zero value, whose nil `DNSKEYRespSec` makes the `[1]` index panic),
build a DS from its second record (the KSK; a non-DNSKEY payload fails
the type assertion), and sign it with whatever material the map holds
for the parent name — the source performs NO materialization here.
Anything else: synthesize an A record at the server's address and sign
it under the parent (or the name itself when the parent is the root),
materializing that signer if absent. -/
def Response (env : CryptoEnv) (d : DNSSECResponserConf) (st : DNSSECState)
    (qInfo : QueryInfo) : Option (ResponseInfo × DNSSECState) :=
  let rInfo := InitResp d qInfo
  match qInfo.DNS.Question with
  | [] => none
  | q0 :: _ =>
    let qType := q0.Typ
    let qName := q0.Name
    if qType = DNSRRTypeDNSKEY then
      let got :=
        match st.map qName with
        | some m => some (m, st)
        | none =>
          match CreateDNSSECMat env st.ctr d.DNSSECConf qName with
          | none => none
          | some m =>
            some (m, ⟨fun n => if n = qName then some m else st.map n, st.ctr + 1⟩)
      match got with
      | none => none
      | some (dnssecMat, st1) =>
        some ({ rInfo with
          DNS := { rInfo.DNS with
            Answer := dnssecMat.DNSKEYRespSec
            Header := { rInfo.DNS.Header with
              ANCount := dnssecMat.DNSKEYRespSec.length % 65536
              RCode := DNSResponseCodeNoErr } } }, st1)
    else if qType = DNSRRTypeDS then
      match ((st.map qName).getD zeroDNSSECMaterial).DNSKEYRespSec.get? 1 with
      | none => none
      | some kskRR =>
        match kskRR.RData with
        | .dnskey kRDATA =>
          match GenerateDS env qName kRDATA d.DNSSECConf.dType with
          | none => none
          | some ds =>
            let qSignerName := GetUpperDomainName qName
            let rcd : DNSResourceRecord :=
              ⟨qName, DNSRRTypeDS, DNSClassIN, 86400,
                (4 + ds.Digest.length) % 65536, .ds ds⟩
            let dnssecMat := (st.map qSignerName).getD zeroDNSSECMaterial
            match GenerateRRSIG env [rcd] d.DNSSECConf.dAlgo
                ((env.qnow + 86400 - 3600) % 4294967296)
                ((env.qnow - 3600) % 4294967296)
                (dnssecMat.ZSKTag % 65536) qSignerName dnssecMat.PrivateZSK with
            | none => none
            | some sig =>
              match rdataSize (.rrsig sig) with
              | none => none
              | some ssz =>
                let sigRec : DNSResourceRecord :=
                  ⟨qName, DNSRRTypeRRSIG, DNSClassIN, 86400, ssz % 65536, .rrsig sig⟩
                some ({ rInfo with
                  DNS := { rInfo.DNS with
                    Answer := [rcd, sigRec]
                    Header := { rInfo.DNS.Header with
                      ANCount := 2
                      RCode := DNSResponseCodeNoErr } } }, st)
        | _ => none
    else
      let rcd : DNSResourceRecord :=
        ⟨qName, DNSRRTypeA, DNSClassIN, 86400, 0, .a d.ServerIP⟩
      let upper := GetUpperDomainName qName
      let qSignerName := if upper = [dot] then qName else upper
      let got :=
        match st.map qSignerName with
        | some m => some (m, st)
        | none =>
          match CreateDNSSECMat env st.ctr d.DNSSECConf qSignerName with
          | none => none
          | some m =>
            some (m, ⟨fun n => if n = qSignerName then some m else st.map n, st.ctr + 1⟩)
      match got with
      | none => none
      | some (dnssecMat, st1) =>
        match GenerateRRSIG env [rcd] d.DNSSECConf.dAlgo
            ((env.qnow + 86400 - 3600) % 4294967296)
            ((env.qnow - 3600) % 4294967296)
            (dnssecMat.ZSKTag % 65536) qSignerName dnssecMat.PrivateZSK with
        | none => none
        | some sig =>
          match rdataSize (.rrsig sig) with
          | none => none
          | some ssz =>
            let sigRec : DNSResourceRecord :=
              ⟨qName, DNSRRTypeRRSIG, DNSClassIN, 86400, ssz % 65536, .rrsig sig⟩
            some ({ rInfo with
              DNS := { rInfo.DNS with
                Answer := [rcd, sigRec]
                Header := { rInfo.DNS.Header with
                  ANCount := 2
                  RCode := DNSResponseCodeNoErr } } }, st1)

/-! Specification-side vocabulary for domain names: a name is a join of
labels, optionally absolute (trailing separator). -/

/-- Textual form of a non-root domain name with the given labels;
`absolute` appends the trailing separator. -/
def joinLabels : List (List Nat) → Bool → List Nat
  | [], _ => []
  | [l], absolute => l ++ (if absolute then [dot] else [])
  | l :: ls, absolute => l ++ dot :: joinLabels ls absolute

/-- Wire form of a label sequence: each label preceded by its length
byte (without the closing zero byte). -/
def labelWire : List (List Nat) → List Nat
  | [] => []
  | l :: ls => l.length :: l ++ labelWire ls

/-- Relative normal form of a textual name: the trailing separator is
stripped, except the root name which stays ".". -/
def relativeNormalForm (name : List Nat) : List Nat :=
  if name = [dot] then [dot]
  else if name.getLast? = some dot then name.dropLast
  else name

/-- Validity of a domain name as the claims word it: the root ".", or a
nonempty sequence of labels (each nonempty, at most 63 bytes, free of
the separator) in relative or absolute textual form, with total wire
form at most 255 bytes. -/
def ValidDomainName (name : List Nat) : Prop :=
  name = [dot] ∨
    ∃ ls absolute, name = joinLabels ls absolute ∧ ls ≠ [] ∧
      (∀ l ∈ ls, l ≠ [] ∧ l.length ≤ 63 ∧ dot ∉ l) ∧
      (GetDomainNameWireLen name).getD 0 ≤ 255

/-- Textual form of a label sequence with a separator after every label:
`l1.l2.⋯.lk.` — the normal form both of absolute names and of the string
a decode loop accumulates before stripping the trailing separator. -/
def dottedText : List (List Nat) → List Nat
  | [] => []
  | l :: ls => l ++ dot :: dottedText ls

/-- Key tag and signer name of an RRSIG payload, for stating which key a
produced signature record claims to be signed by. -/
def rrsigTagSigner : RDataV → Option (Nat × List Nat)
  | .rrsig rr => some (rr.KeyTag, rr.SignerName)
  | _ => none

/-- Concrete deterministic oracle for evaluating the responser on
explicit inputs: fixed key bytes and clock, a signing oracle that always
succeeds, a digest oracle returning a fixed byte. -/
def testEnv : CryptoEnv :=
  ⟨fun _ => ⟨[1], [2], [3], [4], 1000000⟩,
    fun _ _ _ _ _ _ _ => some [9],
    fun _ _ => [8],
    2000000⟩

/-- Concrete header for test queries. -/
def testHeader : DNSHeader :=
  ⟨77, false, 0, false, false, true, false, 0, 0, 1, 0, 0, 0⟩

/-- Concrete single-question query for a name and record type. -/
def testQuery (nm : List Nat) (t : Nat) : QueryInfo :=
  ⟨[0], [1], 53, ⟨testHeader, [⟨nm, t, DNSClassIN⟩], [], [], []⟩⟩

/-- Concrete responser configuration whose default response header has
the authoritative-answer flag CLEARED and recursion-desired SET — legal
under the type of the configuration, exercising that `Response` merely
inherits these flags. -/
def testConfAAFalse : DNSSECResponserConf :=
  ⟨[10, 10, 0, 3],
    ⟨[], [], 0, ⟨⟨0, true, 0, false, false, true, true, 0, 3, 0, 0, 0, 0⟩, [], [], [], []⟩⟩,
    ⟨14, 2⟩⟩

/-- Empty zone-material state. -/
def emptyState : DNSSECState := ⟨fun _ => none, 0⟩

/-- Concrete key material for the child zone "c.p", as a DNSKEY query
would have cached it: zone-signing key, key-signing key, signature. -/
def testChildMat : DNSSECMaterial :=
  ⟨5, 6, [7], [8],
    [⟨[99, 46, 112], DNSRRTypeDNSKEY, DNSClassIN, 86400, 5, .dnskey ⟨256, 3, 14, [4]⟩⟩,
     ⟨[99, 46, 112], DNSRRTypeDNSKEY, DNSClassIN, 86400, 5, .dnskey ⟨257, 3, 14, [2]⟩⟩,
     ⟨[99, 46, 112], DNSRRTypeRRSIG, DNSClassIN, 86400, 22,
       .rrsig ⟨48, 14, 2, 86400, 1, 2, 3, [112], [9]⟩⟩]⟩

/-- State caching only the child zone "c.p" — its parent "p" is absent. -/
def childOnlyState : DNSSECState :=
  ⟨fun n => if n = [99, 46, 112] then some testChildMat else none, 1⟩

/-- Junk default used to project a known-successful `Response` result. -/
def junkPair : ResponseInfo × DNSSECState :=
  (⟨[], [], 0, ⟨testHeader, [], [], [], []⟩⟩, emptyState)

theorem joinLabels_cons_ne (l : List Nat) (ls : List (List Nat)) (hls : ls ≠ []) (b : Bool) :
    joinLabels (l :: ls) b = l ++ dot :: joinLabels ls b := by
  cases ls with
  | nil => exact absurd rfl hls
  | cons x xs => rfl

theorem joinLabels_true_eq (ls : List (List Nat)) : joinLabels ls true = dottedText ls := by
  induction ls with
  | nil => rfl
  | cons l ls ih =>
    cases ls with
    | nil => simp [joinLabels, dottedText]
    | cons x xs =>
      rw [joinLabels_cons_ne l (x :: xs) (by simp), ih]
      rfl

theorem joinLabels_false_eq (init : List (List Nat)) (lastL : List Nat) :
    joinLabels (init ++ [lastL]) false = dottedText init ++ lastL := by
  induction init with
  | nil => simp [joinLabels, dottedText]
  | cons l init ih =>
    rw [List.cons_append, joinLabels_cons_ne l (init ++ [lastL]) (by simp), ih]
    simp [dottedText]

theorem labelWire_append (xs ys : List (List Nat)) :
    labelWire (xs ++ ys) = labelWire xs ++ labelWire ys := by
  induction xs with
  | nil => rfl
  | cons l xs ih => simp [labelWire, ih]

theorem dottedText_length (ls : List (List Nat)) :
    (dottedText ls).length = (labelWire ls).length := by
  induction ls with
  | nil => rfl
  | cons l ls ih =>
    simp [dottedText, labelWire, ih]
    omega

theorem dottedText_eq_concat (ls : List (List Nat)) (hls : ls ≠ []) :
    dottedText ls = joinLabels ls false ++ [dot] := by
  induction ls with
  | nil => exact absurd rfl hls
  | cons l ls ih =>
    cases ls with
    | nil => simp [dottedText, joinLabels]
    | cons x xs =>
      rw [joinLabels_cons_ne l (x :: xs) (by simp)]
      have e : dottedText (l :: x :: xs) = l ++ dot :: dottedText (x :: xs) := rfl
      rw [e, ih (by simp)]
      simp

theorem mem_of_getLast?_eq (l : List Nat) (b : Nat) (h : l.getLast? = some b) : b ∈ l := by
  rw [List.getLast?_eq_head?_reverse] at h
  have hb : b ∈ l.reverse := List.mem_of_mem_head? (by simp [h])
  exact List.mem_reverse.mp hb

/-! List bookkeeping for the index-based writes of the encoder loop. -/

theorem take_len_append (done rest : List Nat) : (done ++ rest).take done.length = done := by
  induction done with
  | nil => rfl
  | cons x xs ih => simp [ih]

theorem drop_len_append (done rest : List Nat) (k : Nat) :
    (done ++ rest).drop (done.length + k) = rest.drop k := by
  induction done with
  | nil => simp
  | cons x xs ih =>
    simp only [List.cons_append, List.length_cons]
    rw [show xs.length + 1 + k = (xs.length + k) + 1 by omega]
    simpa using ih

theorem set_len_append (done : List Nat) (r : Nat) (rs : List Nat) (v : Nat) :
    (done ++ r :: rs).set done.length v = done ++ v :: rs := by
  induction done with
  | nil => rfl
  | cons x xs ih => simp [ih]

theorem goCopy_append (done rs src : List Nat) (h : src.length ≤ rs.length) :
    goCopy (done ++ rs) done.length src = done ++ src ++ rs.drop src.length := by
  unfold goCopy
  rw [take_len_append, drop_len_append]
  have hl : (done ++ rs).length - done.length = rs.length := by simp
  rw [hl, List.take_of_length_le h]

/-! Characterization of the shared encoder loop on a name presented as
labels.  The writes are contiguous: after the labels already flushed
(`done` positions of the array), each separator step appends one length
byte and one label to the written region. -/

theorem encodeLoopGo_skip (name l : List Nat) (hl : dot ∉ l) :
    ∀ (rest : List Nat) (i ll : Nat) (arr : List Nat),
      encodeLoopGo name (l ++ rest) i ll arr =
        encodeLoopGo name rest (i + l.length) (ll + l.length) arr := by
  induction l with
  | nil => intro rest i ll arr; simp [encodeLoopGo]
  | cons c t ih =>
    intro rest i ll arr
    have hc : ¬ c = dot := fun h => hl (h ▸ List.mem_cons_self c t)
    have ht : dot ∉ t := fun h => hl (List.mem_cons_of_mem c h)
    simp only [List.cons_append, encodeLoopGo, if_neg hc]
    rw [show (c :: t).length = t.length + 1 from rfl,
      show i + (t.length + 1) = (i + 1) + t.length by omega,
      show ll + (t.length + 1) = (ll + 1) + t.length by omega]
    exact ih ht rest (i + 1) (ll + 1) arr

theorem encodeLoopGo_dot_step (name l done : List Nat) (r0 : Nat) (rs' rest : List Nat)
    (hldot : dot ∉ l) (hl255 : l.length ≤ 255) (hrs' : l.length ≤ rs'.length)
    (hslice : (name.drop done.length).take l.length = l) :
    encodeLoopGo name (l ++ dot :: rest) done.length 0 (done ++ r0 :: rs') =
      encodeLoopGo name rest (done.length + l.length + 1) 0
        ((done ++ l.length :: l) ++ rs'.drop l.length) := by
  rw [encodeLoopGo_skip name l hldot (dot :: rest) done.length 0 (done ++ r0 :: rs')]
  simp only [encodeLoopGo, if_pos rfl, Nat.zero_add]
  rw [show done.length + l.length - l.length = done.length by omega]
  rw [Nat.mod_eq_of_lt (by omega : l.length < 256)]
  rw [set_len_append done r0 rs' l.length]
  have hs : sliceL name done.length (done.length + l.length) = l := by
    unfold sliceL
    rw [show done.length + l.length - done.length = l.length by omega]
    exact hslice
  rw [hs]
  have e1 : done ++ l.length :: rs' = (done ++ [l.length]) ++ rs' := by simp
  rw [e1, show done.length + 1 = (done ++ [l.length]).length by simp]
  rw [goCopy_append (done ++ [l.length]) rs' l hrs']
  have e2 : done ++ [l.length] ++ l ++ rs'.drop l.length =
      (done ++ l.length :: l) ++ rs'.drop l.length := by simp
  rw [e2]
  simp only [if_true]

theorem joinLabels_true_cons (l : List Nat) (ls : List (List Nat)) :
    joinLabels (l :: ls) true = l ++ dot :: dottedText ls := by
  cases ls with
  | nil => simp [joinLabels, dottedText]
  | cons x xs =>
    rw [joinLabels_cons_ne l (x :: xs) (by simp), joinLabels_true_eq]

theorem encodeLoopGo_labels_abs (name : List Nat) :
    ∀ (ls : List (List Nat)), ls ≠ [] →
      (∀ l ∈ ls, dot ∉ l ∧ l.length ≤ 255) →
      ∀ (done rs : List Nat),
        name.drop done.length = joinLabels ls true →
        (labelWire ls).length ≤ rs.length →
        encodeLoopGo name (joinLabels ls true) done.length 0 (done ++ rs) =
          (done ++ labelWire ls ++ rs.drop (labelWire ls).length, 0) := by
  intro ls
  induction ls with
  | nil => intro h; exact absurd rfl h
  | cons l ls ih =>
    intro _ hlab done rs hjoin hlen
    have hldot : dot ∉ l := (hlab l (List.mem_cons_self l ls)).1
    have hl255 : l.length ≤ 255 := (hlab l (List.mem_cons_self l ls)).2
    have hlw : labelWire (l :: ls) = l.length :: (l ++ labelWire ls) := rfl
    obtain ⟨r0, rs', rfl⟩ : ∃ r0 rs', rs = r0 :: rs' := by
      cases rs with
      | nil => simp [hlw] at hlen
      | cons a b => exact ⟨a, b, rfl⟩
    have hrs' : l.length ≤ rs'.length := by
      simp [hlw] at hlen; omega
    rw [joinLabels_true_cons] at hjoin ⊢
    have hslice : (name.drop done.length).take l.length = l := by
      rw [hjoin]
      exact take_len_append l (dot :: dottedText ls)
    rw [encodeLoopGo_dot_step name l done r0 rs' (dottedText ls) hldot hl255 hrs' hslice]
    have hdrop2 : name.drop (done.length + l.length + 1) = dottedText ls := by
      have h1 := congrArg (List.drop (l.length + 1)) hjoin
      rw [List.drop_drop] at h1
      rw [show done.length + (l.length + 1) = done.length + l.length + 1 by omega] at h1
      rw [h1]
      have e : l ++ dot :: dottedText ls = (l ++ [dot]) ++ dottedText ls := by simp
      rw [e, show l.length + 1 = (l ++ [dot]).length + 0 by simp]
      rw [drop_len_append (l ++ [dot]) _ 0]
      simp
    cases ls with
    | nil =>
      simp only [dottedText, encodeLoopGo]
      rw [hlw]
      refine congrArg (fun z => (z, 0)) ?_
      simp [labelWire, List.drop_drop]
    | cons x xs =>
      rw [← joinLabels_true_eq (x :: xs)] at hdrop2 ⊢
      have e3 : done.length + l.length + 1 = (done ++ l.length :: l).length := by
        simp
        omega
      rw [e3] at hdrop2 ⊢
      have hlen2 : (labelWire (x :: xs)).length ≤ (rs'.drop l.length).length := by
        rw [hlw] at hlen
        simp at hlen ⊢
        omega
      rw [ih (by simp) (fun m hm => hlab m (List.mem_cons_of_mem l hm))
        (done ++ l.length :: l) (rs'.drop l.length) hdrop2 hlen2]
      refine congrArg (fun z => (z, 0)) ?_
      rw [hlw]
      simp [List.drop_drop]

theorem encodeLoopGo_labels_rel (name : List Nat) :
    ∀ (init : List (List Nat)) (lastL : List Nat),
      (∀ l ∈ init, dot ∉ l ∧ l.length ≤ 255) → dot ∉ lastL →
      ∀ (done rs : List Nat),
        name.drop done.length = joinLabels (init ++ [lastL]) false →
        (labelWire init).length ≤ rs.length →
        encodeLoopGo name (joinLabels (init ++ [lastL]) false) done.length 0 (done ++ rs) =
          (done ++ labelWire init ++ rs.drop (labelWire init).length, lastL.length) := by
  intro init
  induction init with
  | nil =>
    intro lastL _ hlast done rs hjoin hlen
    have hj : joinLabels (([] : List (List Nat)) ++ [lastL]) false = lastL := by
      simp [joinLabels]
    rw [hj]
    have hskip := encodeLoopGo_skip name lastL hlast [] done.length 0 (done ++ rs)
    simp only [List.append_nil] at hskip
    rw [hskip]
    simp [encodeLoopGo, labelWire]
  | cons l init' ih =>
    intro lastL hlab hlast done rs hjoin hlen
    have hj : joinLabels ((l :: init') ++ [lastL]) false =
        l ++ dot :: joinLabels (init' ++ [lastL]) false := by
      rw [List.cons_append, joinLabels_cons_ne l (init' ++ [lastL]) (by simp)]
    rw [hj] at hjoin ⊢
    have hldot : dot ∉ l := (hlab l (List.mem_cons_self l init')).1
    have hl255 : l.length ≤ 255 := (hlab l (List.mem_cons_self l init')).2
    have hlw : labelWire (l :: init') = l.length :: (l ++ labelWire init') := rfl
    obtain ⟨r0, rs', rfl⟩ : ∃ r0 rs', rs = r0 :: rs' := by
      cases rs with
      | nil => simp [hlw] at hlen
      | cons a b => exact ⟨a, b, rfl⟩
    have hrs' : l.length ≤ rs'.length := by
      simp [hlw] at hlen; omega
    have hslice : (name.drop done.length).take l.length = l := by
      rw [hjoin]
      exact take_len_append l (dot :: joinLabels (init' ++ [lastL]) false)
    rw [encodeLoopGo_dot_step name l done r0 rs' (joinLabels (init' ++ [lastL]) false)
      hldot hl255 hrs' hslice]
    have hdrop2 : name.drop (done.length + l.length + 1) =
        joinLabels (init' ++ [lastL]) false := by
      have h1 := congrArg (List.drop (l.length + 1)) hjoin
      rw [List.drop_drop] at h1
      rw [show done.length + (l.length + 1) = done.length + l.length + 1 by omega] at h1
      rw [h1]
      have e : l ++ dot :: joinLabels (init' ++ [lastL]) false =
          (l ++ [dot]) ++ joinLabels (init' ++ [lastL]) false := by simp
      rw [e, show l.length + 1 = (l ++ [dot]).length + 0 by simp]
      rw [drop_len_append (l ++ [dot]) _ 0]
      simp
    have e3 : done.length + l.length + 1 = (done ++ l.length :: l).length := by
      simp
      omega
    rw [e3] at hdrop2 ⊢
    have hlen2 : (labelWire init').length ≤ (rs'.drop l.length).length := by
      rw [hlw] at hlen
      simp at hlen ⊢
      omega
    rw [ih lastL (fun m hm => hlab m (List.mem_cons_of_mem l hm)) hlast
      (done ++ l.length :: l) (rs'.drop l.length) hdrop2 hlen2]
    refine congrArg (fun z => (z, lastL.length)) ?_
    rw [hlw]
    simp [List.drop_drop]

theorem dottedText_ne_nil (ls : List (List Nat)) (h : ls ≠ []) : dottedText ls ≠ [] := by
  cases ls with
  | nil => exact absurd rfl h
  | cons l ls => simp [dottedText]

/-! Wire-length and whole-encoder characterizations on names presented
as labels. -/

theorem wirelen_rel (init : List (List Nat)) (lastL : List Nat)
    (hne : lastL ≠ []) (hdot : dot ∉ lastL) :
    GetDomainNameWireLen (dottedText init ++ lastL) =
      some ((dottedText init ++ lastL).length + 2) := by
  obtain ⟨b, hb⟩ := Option.isSome_iff_exists.mp (List.getLast?_isSome.mpr hne)
  have hbl : (dottedText init ++ lastL).getLast? = some b := by
    rw [List.getLast?_append_of_ne_nil (dottedText init) hne, hb]
  have hbd : ¬ b = dot := fun h => hdot (h ▸ mem_of_getLast?_eq lastL b hb)
  simp only [GetDomainNameWireLen, hbl, if_neg hbd]

theorem wirelen_abs (ls : List (List Nat)) (hne : ls ≠ [])
    (hroot : dottedText ls ≠ [dot]) :
    GetDomainNameWireLen (dottedText ls) = some ((dottedText ls).length + 1) := by
  have hcat := dottedText_eq_concat ls hne
  have hlast : (dottedText ls).getLast? = some dot := by
    rw [hcat, List.getLast?_append_of_ne_nil _ (by simp)]
    rfl
  have hlen1 : ¬ (dottedText ls).length = 1 := by
    intro h
    obtain ⟨a, ha⟩ := List.length_eq_one.mp h
    rw [ha] at hlast
    have : a = dot := by
      simpa [List.getLast?] using hlast
    exact hroot (by rw [ha, this])
  simp only [GetDomainNameWireLen, hlast, if_pos rfl, if_neg hlen1, if_true]

theorem encode_writes_abs (ls : List (List Nat)) (hne : ls ≠ [])
    (hlab : ∀ l ∈ ls, dot ∉ l ∧ l.length ≤ 255)
    (rs : List Nat) (hlen : (labelWire ls).length ≤ rs.length) :
    encodeLoopGo (dottedText ls) (dottedText ls) 0 0 rs =
      (labelWire ls ++ rs.drop (labelWire ls).length, 0) := by
  have h := encodeLoopGo_labels_abs (dottedText ls) ls hne hlab [] rs
    (by simp [joinLabels_true_eq]) hlen
  simpa [joinLabels_true_eq] using h

theorem encode_writes_rel (init : List (List Nat)) (lastL : List Nat)
    (hlab : ∀ l ∈ init, dot ∉ l ∧ l.length ≤ 255) (hlast : dot ∉ lastL)
    (rs : List Nat) (hlen : (labelWire init).length ≤ rs.length) :
    encodeLoopGo (dottedText init ++ lastL) (dottedText init ++ lastL) 0 0 rs =
      (labelWire init ++ rs.drop (labelWire init).length, lastL.length) := by
  have h := encodeLoopGo_labels_rel (dottedText init ++ lastL) init lastL hlab hlast [] rs
    (by simp [joinLabels_false_eq]) hlen
  simpa [joinLabels_false_eq] using h

theorem encode_tail_step (lWi lastL : List Nat) (r0 : Nat) (rs' : List Nat)
    (hll : lastL.length ≤ 255) (hrs : lastL.length ≤ rs'.length)
    (src : List Nat) (hsrc : src = lastL) (encLen : Nat)
    (henc : encLen = lWi.length + lastL.length + 2) :
    goCopy ((lWi ++ r0 :: rs').set (encLen - lastL.length - 2) (lastL.length % 256))
      (encLen - lastL.length - 1) src =
      lWi ++ lastL.length :: lastL ++ rs'.drop lastL.length := by
  subst hsrc henc
  rw [show lWi.length + src.length + 2 - src.length - 2 = lWi.length by omega]
  rw [Nat.mod_eq_of_lt (by omega : src.length < 256)]
  rw [set_len_append]
  rw [show lWi.length + src.length + 2 - src.length - 1 = lWi.length + 1 by omega]
  rw [show lWi ++ src.length :: rs' = (lWi ++ [src.length]) ++ rs' by simp]
  rw [show lWi.length + 1 = (lWi ++ [src.length]).length by simp]
  rw [goCopy_append _ _ _ hrs]
  simp

theorem EncodeDomainName_dotted_abs (ls : List (List Nat)) (hne : ls ≠ [])
    (hlab : ∀ l ∈ ls, dot ∉ l ∧ l.length ≤ 255) (hroot : dottedText ls ≠ [dot]) :
    EncodeDomainName (dottedText ls) = some (labelWire ls ++ [0]) := by
  have hw := wirelen_abs ls hne hroot
  have hN : dottedText ls ≠ [] := dottedText_ne_nil ls hne
  have hN1 : 1 ≤ (dottedText ls).length := List.length_pos.mpr hN
  have hdl := dottedText_length ls
  simp only [EncodeDomainName, hw]
  rw [if_neg (by omega : ¬ (dottedText ls).length + 1 = 1)]
  have hlen : (labelWire ls).length ≤
      (List.replicate ((dottedText ls).length + 1) 0).length := by
    simp [← hdl]
  rw [encode_writes_abs ls hne hlab _ hlen]
  simp only [ne_eq, not_true_eq_false, if_neg, if_false]
  rw [List.drop_replicate]
  rw [show (dottedText ls).length + 1 - (labelWire ls).length = 1 by omega]
  rfl

theorem EncodeDomainName_dotted_rel (init : List (List Nat)) (lastL : List Nat)
    (hlab : ∀ l ∈ init, dot ∉ l ∧ l.length ≤ 255)
    (hlast : dot ∉ lastL) (hlne : lastL ≠ []) (hl255 : lastL.length ≤ 255) :
    EncodeDomainName (dottedText init ++ lastL) =
      some (labelWire (init ++ [lastL]) ++ [0]) := by
  have hw := wirelen_rel init lastL hlne hlast
  have hdl := dottedText_length init
  have hlen0 : (dottedText init ++ lastL).length =
      (labelWire init).length + lastL.length := by simp [← hdl]
  simp only [EncodeDomainName, hw]
  rw [if_neg (by omega : ¬ (dottedText init ++ lastL).length + 2 = 1)]
  have hrep : List.replicate ((dottedText init ++ lastL).length + 2) 0 =
      List.replicate ((labelWire init).length) 0 ++
        0 :: List.replicate (lastL.length + 1) 0 := by
    rw [show (dottedText init ++ lastL).length + 2 =
      (labelWire init).length + (lastL.length + 2) by omega]
    rw [List.replicate_add]
    rfl
  have hlen : (labelWire init).length ≤
      (List.replicate ((dottedText init ++ lastL).length + 2) 0).length := by
    simp
    omega
  rw [encode_writes_rel init lastL hlab hlast _ hlen]
  have hlz : lastL.length ≠ 0 := fun h => hlne (List.length_eq_zero.mp h)
  simp only [ne_eq, hlz, not_false_eq_true, if_true, if_pos]
  rw [hrep]
  have hdrop1 : List.drop (labelWire init).length
      (List.replicate (labelWire init).length (0 : Nat) ++
        0 :: List.replicate (lastL.length + 1) 0) =
      0 :: List.replicate (lastL.length + 1) 0 := by
    have h := drop_len_append (List.replicate (labelWire init).length (0 : Nat))
      (0 :: List.replicate (lastL.length + 1) 0) 0
    simpa using h
  rw [hdrop1]
  have hdropN : (dottedText init ++ lastL).drop
      ((dottedText init ++ lastL).length - lastL.length) = lastL := by
    rw [show (dottedText init ++ lastL).length - lastL.length =
      (dottedText init).length + 0 by simp]
    rw [drop_len_append]
    rfl
  rw [encode_tail_step (labelWire init) lastL 0 (List.replicate (lastL.length + 1) 0)
    hl255 (by simp) _ hdropN _ (by omega)]
  rw [List.drop_replicate]
  rw [show lastL.length + 1 - lastL.length = 1 by omega]
  rw [labelWire_append]
  simp [labelWire]

theorem EncodeDomainNameToBuffer_dotted_abs (ls : List (List Nat)) (hne : ls ≠ [])
    (hlab : ∀ l ∈ ls, dot ∉ l ∧ l.length ≤ 255) (hroot : dottedText ls ≠ [dot])
    (buffer : List Nat) (hbuf : (dottedText ls).length + 1 ≤ buffer.length) :
    EncodeDomainNameToBuffer (dottedText ls) buffer =
      .ok ((dottedText ls).length + 1)
        (labelWire ls ++ buffer.drop (labelWire ls).length) := by
  have hw := wirelen_abs ls hne hroot
  have hN : dottedText ls ≠ [] := dottedText_ne_nil ls hne
  have hN1 : 1 ≤ (dottedText ls).length := List.length_pos.mpr hN
  have hdl := dottedText_length ls
  simp only [EncodeDomainNameToBuffer, hw]
  rw [if_neg (by omega : ¬ buffer.length < (dottedText ls).length + 1)]
  rw [if_neg (by omega : ¬ (dottedText ls).length + 1 = 1)]
  rw [encode_writes_abs ls hne hlab buffer (by omega)]
  simp

theorem EncodeDomainNameToBuffer_dotted_rel (init : List (List Nat)) (lastL : List Nat)
    (hlab : ∀ l ∈ init, dot ∉ l ∧ l.length ≤ 255)
    (hlast : dot ∉ lastL) (hlne : lastL ≠ []) (hl255 : lastL.length ≤ 255)
    (buffer : List Nat) (hbuf : (dottedText init ++ lastL).length + 2 ≤ buffer.length) :
    EncodeDomainNameToBuffer (dottedText init ++ lastL) buffer =
      .ok ((dottedText init ++ lastL).length + 2)
        (labelWire (init ++ [lastL]) ++
          buffer.drop ((labelWire (init ++ [lastL])).length)) := by
  have hw := wirelen_rel init lastL hlne hlast
  have hdl := dottedText_length init
  have hlen0 : (dottedText init ++ lastL).length =
      (labelWire init).length + lastL.length := by simp [← hdl]
  simp only [EncodeDomainNameToBuffer, hw]
  rw [if_neg (by omega : ¬ buffer.length < (dottedText init ++ lastL).length + 2)]
  rw [if_neg (by omega : ¬ (dottedText init ++ lastL).length + 2 = 1)]
  rw [encode_writes_rel init lastL hlab hlast buffer (by omega)]
  have hlz : lastL.length ≠ 0 := fun h => hlne (List.length_eq_zero.mp h)
  simp only [ne_eq, hlz, not_false_eq_true, if_true, if_pos]
  obtain ⟨b0, brest, hbd⟩ : ∃ b0 brest,
      buffer.drop (labelWire init).length = b0 :: brest := by
    have : (buffer.drop (labelWire init).length).length =
        buffer.length - (labelWire init).length := by simp
    cases hc : buffer.drop (labelWire init).length with
    | nil => rw [hc] at this; simp at this; omega
    | cons a t => exact ⟨a, t, rfl⟩
  have hbrest : brest = buffer.drop ((labelWire init).length + 1) := by
    have := congrArg List.tail hbd
    rw [List.tail_drop] at this
    simpa using this.symm
  have hbrlen : lastL.length ≤ brest.length := by
    rw [hbrest]
    simp
    omega
  rw [hbd]
  have hdropN : (dottedText init ++ lastL).drop
      ((dottedText init ++ lastL).length - lastL.length) = lastL := by
    rw [show (dottedText init ++ lastL).length - lastL.length =
      (dottedText init).length + 0 by simp]
    rw [drop_len_append]
    rfl
  rw [encode_tail_step (labelWire init) lastL b0 brest hl255 hbrlen _ hdropN _ (by omega)]
  rw [hbrest, List.drop_drop]
  rw [labelWire_append]
  have : labelWire [lastL] = lastL.length :: lastL := by simp [labelWire]
  rw [this]
  refine congrArg (EncToBufResult.ok ((dottedText init ++ lastL).length + 2)) ?_
  simp
  congr 1
  omega

theorem getElem?_of_drop (data : List Nat) :
    ∀ (n x : Nat) (xs : List Nat), data.drop n = x :: xs → data[n]? = some x := by
  induction data with
  | nil => intro n x xs h; simp at h
  | cons d ds ih =>
    intro n x xs h
    cases n with
    | zero =>
      simp at h
      simp [h.1]
    | succ n =>
      simp only [List.drop_succ_cons] at h
      simpa using ih n x xs h

theorem labelWire_length_ge (ls : List (List Nat)) : ls.length ≤ (labelWire ls).length := by
  induction ls with
  | nil => simp
  | cons l ls ih => simp [labelWire]; omega

theorem decodeLoopGo_labels :
    ∀ (ls : List (List Nat)), (∀ l ∈ ls, l ≠ []) →
      ∀ (data : List Nat) (fuel n : Nat) (acc : List Nat),
        data.drop n = labelWire ls ++ [0] → ls.length + 1 ≤ fuel →
        decodeLoopGo data fuel n acc =
          some (acc ++ dottedText ls, n + (labelWire ls).length) := by
  intro ls
  induction ls with
  | nil =>
    intro _ data fuel n acc hdrop hfuel
    obtain ⟨f, rfl⟩ : ∃ k, fuel = k + 1 := ⟨fuel - 1, by omega⟩
    have hget : data[n]? = some 0 := getElem?_of_drop data n 0 [] (by simpa [labelWire] using hdrop)
    simp [decodeLoopGo, hget, dottedText, labelWire]
  | cons l ls ih =>
    intro hlab data fuel n acc hdrop hfuel
    obtain ⟨f, rfl⟩ : ∃ k, fuel = k + 1 := ⟨fuel - 1, by omega⟩
    have hlw : labelWire (l :: ls) ++ [0] = l.length :: (l ++ (labelWire ls ++ [0])) := by
      simp [labelWire]
    rw [hlw] at hdrop
    have hget : data[n]? = some l.length :=
      getElem?_of_drop data n l.length _ hdrop
    have hlpos : l.length ≠ 0 := fun h =>
      hlab l (List.mem_cons_self l ls) (List.length_eq_zero.mp h)
    have hdlen : data.length - n = l.length + (labelWire ls).length + 2 := by
      have := congrArg List.length hdrop
      simpa using this
    have hnlt : n < data.length := by
      by_contra hc
      push_neg at hc
      rw [List.drop_eq_nil_of_le hc] at hdrop
      simp at hdrop
    have hdrop1 : data.drop (n + 1) = l ++ (labelWire ls ++ [0]) := by
      have h1 := congrArg List.tail hdrop
      rw [List.tail_drop] at h1
      simpa using h1
    have hdrop2 : data.drop (n + l.length + 1) = labelWire ls ++ [0] := by
      have h1 := congrArg (List.drop l.length) hdrop1
      rw [List.drop_drop] at h1
      have h2 : List.drop (n + l.length + 1) data =
          List.drop l.length (l ++ (labelWire ls ++ [0])) := by
        rw [← h1]
        congr 1
        omega
      rw [h2, show l.length = l.length + 0 by omega]
      rw [drop_len_append]
      simp
    have hbound : n + 1 + l.length ≤ data.length := by omega
    simp only [decodeLoopGo, List.get?_eq_getElem?, hget, if_neg hlpos, if_pos hbound]
    have hslice : sliceL data (n + 1) (n + 1 + l.length) = l := by
      unfold sliceL
      rw [hdrop1, show n + 1 + l.length - (n + 1) = l.length by omega]
      exact take_len_append l (labelWire ls ++ [0])
    rw [hslice]
    rw [ih (fun m hm => hlab m (List.mem_cons_of_mem l hm)) data f (n + l.length + 1)
      (acc ++ l ++ [dot]) hdrop2 (by simpa using hfuel)]
    have e1 : acc ++ l ++ [dot] ++ dottedText ls = acc ++ dottedText (l :: ls) := by
      simp [dottedText]
    have e2 : n + l.length + 1 + (labelWire ls).length =
        n + (labelWire (l :: ls)).length := by
      simp [labelWire]
      omega
    rw [e1, e2]

theorem DecodeDomainName_labelWire (ls : List (List Nat)) (hne : ls ≠ [])
    (hlab : ∀ l ∈ ls, l ≠ []) :
    DecodeDomainName (labelWire ls ++ [0]) = some (joinLabels ls false) := by
  have hfuel : ls.length + 1 ≤ (labelWire ls ++ [0]).length + 1 := by
    have := labelWire_length_ge ls
    simp
    omega
  have hloop := decodeLoopGo_labels ls hlab (labelWire ls ++ [0])
    ((labelWire ls ++ [0]).length + 1) 0 [] (by simp) hfuel
  have hlw0 : (labelWire ls).length ≠ 0 := by
    cases ls with
    | nil => exact absurd rfl hne
    | cons l ls => simp [labelWire]
  simp only [DecodeDomainName, hloop]
  rw [if_pos (by simpa using hlw0)]
  rw [if_neg (by simpa using dottedText_ne_nil ls hne)]
  rw [dottedText_eq_concat ls hne]
  simp

theorem keyTagLoop_add_words (l : List Nat) : ∀ i ac, ac < 4294967296 → i % 2 = 0 →
    keyTagLoop l i ac = (ac + (keyTagWordsSpec l).sum) % 4294967296 := by
  induction l using keyTagWordsSpec.induct with
  | case1 =>
    intro i ac h hi
    simp [keyTagLoop, keyTagWordsSpec, Nat.mod_eq_of_lt h]
  | case2 b =>
    intro i ac h hi
    simp [keyTagLoop, keyTagWordsSpec, hi]
  | case3 b c rest ih =>
    intro i ac h hi
    have h1 : (i + 1) % 2 = 1 := by omega
    have h2 : (i + 2) % 2 = 0 := by omega
    simp only [keyTagLoop, hi, h1]
    norm_num
    rw [ih (i + 2) _ (Nat.mod_lt _ (by norm_num)) h2]
    simp only [keyTagWordsSpec, List.sum_cons]
    omega

/-- C2: the key-tag computation of `CalculateKeyTag` (src/parser_test.go
225-237) is a pure function of the encoded DNSKEY payload bytes and
coincides with the specification's description: the bytes taken pairwise
as big-endian 16-bit words (an odd trailing byte the high byte of a last
word), summed into a 32-bit accumulator, the high 16 bits folded into
the low 16 bits exactly once, the low 16 bits returned.  Identical bytes
trivially yield identical tags since it is a function. -/
theorem c2_keytag_matches_spec :
    (∀ rdata : List Nat, CalculateKeyTag rdata = keyTagSpec rdata) ∧
    (∀ r s : List Nat, r = s → CalculateKeyTag r = CalculateKeyTag s) := by
  constructor
  · intro rdata
    unfold CalculateKeyTag keyTagSpec
    rw [keyTagLoop_add_words rdata 0 0 (by norm_num) (by norm_num)]
    simp
  · intro r s h
    rw [h]

/-- C2 witness: the reference-style byte sequence with an odd trailing
byte evaluates identically under the source loop and the
specification's word description, and equal inputs give equal tags. -/
theorem c2_witness :
    CalculateKeyTag [255, 1, 2, 3, 4] = keyTagSpec [255, 1, 2, 3, 4] ∧
    CalculateKeyTag [7, 8] = CalculateKeyTag [7, 8] :=
  ⟨c2_keytag_matches_spec.1 [255, 1, 2, 3, 4], c2_keytag_matches_spec.2 [7, 8] [7, 8] rfl⟩

theorem dottedText_length_ge_two (ls : List (List Nat)) (hne : ls ≠ [])
    (hlab : ∀ l ∈ ls, l ≠ []) : 2 ≤ (dottedText ls).length := by
  cases ls with
  | nil => exact absurd rfl hne
  | cons l ls =>
    have hl : l ≠ [] := hlab l (List.mem_cons_self l ls)
    have : 1 ≤ l.length := List.length_pos.mpr hl
    simp [dottedText]
    omega

/-- C1: for every valid domain name (labels of 1-63 separator-free bytes,
wire form at most 255 bytes, relative or absolute), decoding the encoding
yields the name's relative normal form (trailing separator stripped); the
root name is the stated exception, with `EncodeDomainName "." = [0x00]`
and `DecodeDomainName [0x00] = "."`. -/
theorem c1_encode_decode_roundtrip :
    (∀ name : List Nat, ValidDomainName name →
      (EncodeDomainName name).bind DecodeDomainName = some (relativeNormalForm name)) ∧
    EncodeDomainName [dot] = some [0] ∧
    DecodeDomainName [0] = some [dot] := by
  refine ⟨?_, by decide, by decide⟩
  intro name hval
  rcases hval with h | ⟨ls, absolute, rfl, hne, hlab, hwire⟩
  · subst h
    decide
  · have hlab1 : ∀ l ∈ ls, l ≠ [] := fun l hl => (hlab l hl).1
    have hlab2 : ∀ l ∈ ls, dot ∉ l ∧ l.length ≤ 255 := fun l hl =>
      ⟨(hlab l hl).2.2, by have := (hlab l hl).2.1; omega⟩
    cases absolute with
    | true =>
      rw [joinLabels_true_eq]
      have hroot : dottedText ls ≠ [dot] := by
        intro h
        have := dottedText_length_ge_two ls hne hlab1
        rw [h] at this
        simp at this
      rw [EncodeDomainName_dotted_abs ls hne hlab2 hroot]
      rw [Option.some_bind]
      rw [DecodeDomainName_labelWire ls hne hlab1]
      refine congrArg some ?_
      unfold relativeNormalForm
      rw [if_neg hroot]
      have hlast : (dottedText ls).getLast? = some dot := by
        rw [dottedText_eq_concat ls hne, List.getLast?_append_of_ne_nil _ (by simp)]
        rfl
      rw [if_pos hlast]
      rw [dottedText_eq_concat ls hne]
      simp
    | false =>
      rcases List.eq_nil_or_concat ls with h | ⟨init, lastL, hcat⟩
      · exact absurd h hne
      rw [List.concat_eq_append] at hcat
      subst hcat
      have hlmem : lastL ∈ init ++ [lastL] := by simp
      have hlne : lastL ≠ [] := hlab1 lastL hlmem
      have hldot : dot ∉ lastL := (hlab2 lastL hlmem).1
      have hl255 : lastL.length ≤ 255 := (hlab2 lastL hlmem).2
      have hlabi : ∀ l ∈ init, dot ∉ l ∧ l.length ≤ 255 := fun l hl =>
        hlab2 l (by simp [hl])
      rw [joinLabels_false_eq init lastL]
      rw [EncodeDomainName_dotted_rel init lastL hlabi hldot hlne hl255]
      rw [Option.some_bind]
      rw [DecodeDomainName_labelWire (init ++ [lastL]) (by simp) hlab1]
      refine congrArg some ?_
      rw [joinLabels_false_eq init lastL]
      obtain ⟨b, hb⟩ := Option.isSome_iff_exists.mp (List.getLast?_isSome.mpr hlne)
      have hbl : (dottedText init ++ lastL).getLast? = some b := by
        rw [List.getLast?_append_of_ne_nil _ hlne, hb]
      have hbd : b ≠ dot := fun h => hldot (h ▸ mem_of_getLast?_eq lastL b hb)
      unfold relativeNormalForm
      rw [if_neg, if_neg]
      · rw [hbl]
        simp [hbd]
      · intro h
        rw [h] at hbl
        simp at hbl
        exact hbd hbl.symm

/-- C1 witness: the reference name www.example.com is valid and its
encoding decodes back to itself. -/
theorem c1_witness :
    ValidDomainName [119, 119, 119, 46, 101, 120, 97, 109, 112, 108, 101, 46, 99, 111, 109] ∧
    (EncodeDomainName
        [119, 119, 119, 46, 101, 120, 97, 109, 112, 108, 101, 46, 99, 111, 109]).bind
      DecodeDomainName =
      some (relativeNormalForm
        [119, 119, 119, 46, 101, 120, 97, 109, 112, 108, 101, 46, 99, 111, 109]) := by
  have hv : ValidDomainName
      [119, 119, 119, 46, 101, 120, 97, 109, 112, 108, 101, 46, 99, 111, 109] :=
    Or.inr ⟨[[119, 119, 119], [101, 120, 97, 109, 112, 108, 101], [99, 111, 109]], false,
      rfl, by decide, by decide, by decide⟩
  exact ⟨hv, c1_encode_decode_roundtrip.1 _ hv⟩

/-- C7 counterexample: encoding the name "a" into an exactly-sized dirty
buffer succeeds with the wire length, yet the buffer does NOT hold the
encoding — the final 0x00 terminator byte is never written, so the
buffer's stale last byte survives. -/
theorem c7_counterexample :
    EncodeDomainNameToBuffer [97] [255, 255, 255] = .ok 3 [1, 97, 255] ∧
    EncodeDomainName [97] = some [1, 97, 0] ∧
    ([1, 97, 255] : List Nat) ≠ [1, 97, 0] := by
  decide

/-- C7 (amended): a buffer shorter than the wire length gets the typed
"buffer too small" error with the buffer untouched; a sufficient buffer
gets the wire length and no error, with every byte of the encoding
EXCEPT the final 0x00 terminator written (the terminator's position
keeps the buffer's previous content, so the buffer holds the exact
encoding only if that byte was already zero); the root name, whose
encoding is the single zero byte, is written completely.  Stated for the
root, for absolute names and for relative names given by their labels
(separator-free, each at most 255 bytes, final label nonempty). -/
theorem c7_buffer_encode :
    (∀ (name buffer : List Nat) (w : Nat), GetDomainNameWireLen name = some w →
      buffer.length < w → EncodeDomainNameToBuffer name buffer = .tooSmall buffer) ∧
    (∀ buffer : List Nat, 1 ≤ buffer.length →
      EncodeDomainNameToBuffer [dot] buffer = .ok 1 (buffer.set 0 0)) ∧
    (∀ (ls : List (List Nat)) (buffer : List Nat), ls ≠ [] →
      (∀ l ∈ ls, dot ∉ l ∧ l.length ≤ 255) → dottedText ls ≠ [dot] →
      (dottedText ls).length + 1 ≤ buffer.length →
      EncodeDomainNameToBuffer (dottedText ls) buffer =
        .ok ((dottedText ls).length + 1)
          (labelWire ls ++ buffer.drop (labelWire ls).length) ∧
      EncodeDomainName (dottedText ls) = some (labelWire ls ++ [0])) ∧
    (∀ (init : List (List Nat)) (lastL : List Nat) (buffer : List Nat),
      (∀ l ∈ init, dot ∉ l ∧ l.length ≤ 255) → dot ∉ lastL → lastL ≠ [] →
      lastL.length ≤ 255 →
      (dottedText init ++ lastL).length + 2 ≤ buffer.length →
      EncodeDomainNameToBuffer (dottedText init ++ lastL) buffer =
        .ok ((dottedText init ++ lastL).length + 2)
          (labelWire (init ++ [lastL]) ++
            buffer.drop ((labelWire (init ++ [lastL])).length)) ∧
      EncodeDomainName (dottedText init ++ lastL) =
        some (labelWire (init ++ [lastL]) ++ [0])) := by
  refine ⟨?_, ?_, ?_, ?_⟩
  · intro name buffer w hw hlt
    simp only [EncodeDomainNameToBuffer, hw, if_pos hlt]
  · intro buffer hbuf
    have hw : GetDomainNameWireLen [dot] = some 1 := rfl
    simp only [EncodeDomainNameToBuffer, hw]
    rw [if_neg (by omega : ¬ buffer.length < 1)]
    simp only [if_true]
  · intro ls buffer hne hlab hroot hbuf
    exact ⟨EncodeDomainNameToBuffer_dotted_abs ls hne hlab hroot buffer hbuf,
      EncodeDomainName_dotted_abs ls hne hlab hroot⟩
  · intro init lastL buffer hlab hldot hlne hl255 hbuf
    exact ⟨EncodeDomainNameToBuffer_dotted_rel init lastL hlab hldot hlne hl255 buffer hbuf,
      EncodeDomainName_dotted_rel init lastL hlab hldot hlne hl255⟩

/-- C7 witness: encoding "a.b" into a six-byte dirty buffer writes the
four encoding bytes before the terminator and leaves the rest; a
four-byte buffer is one byte short and gets the typed error with the
buffer untouched. -/
theorem c7_witness :
    EncodeDomainNameToBuffer [97, 46, 98] [255, 255, 255, 255, 255, 255] =
      .ok 5 [1, 97, 1, 98, 255, 255] ∧
    EncodeDomainNameToBuffer [97, 46, 98] [7, 7, 7, 7] = .tooSmall [7, 7, 7, 7] := by
  constructor
  · exact (c7_buffer_encode.2.2.2 [[97]] [98] [255, 255, 255, 255, 255, 255]
      (by decide) (by decide) (by decide) (by decide) (by decide)).1
  · exact c7_buffer_encode.1 [97, 46, 98] [7, 7, 7, 7] 5 (by decide) (by decide)

/-! Character-string lemmas (claim C9). -/

theorem encodeCharLoopGo_eq_chunk (n : Nat) :
    ∀ (s : List Nat) (r fuelE fuelC : Nat), r < s.length → s.length - r ≤ 255 * n →
      n ≤ fuelE → n ≤ fuelC →
      encodeCharLoopGo s fuelE r = chunkEncodeSpec fuelC (s.drop r) := by
  induction n with
  | zero => intro s r fuelE fuelC hr hn _ _; omega
  | succ n ih =>
    intro s r fuelE fuelC hr hn hE hC
    obtain ⟨fE, rfl⟩ : ∃ k, fuelE = k + 1 := ⟨fuelE - 1, by omega⟩
    obtain ⟨fC, rfl⟩ : ∃ k, fuelC = k + 1 := ⟨fuelC - 1, by omega⟩
    by_cases hbig : r + 255 < s.length
    · have hlen : ¬ (s.drop r).length ≤ 255 := by
        simp only [List.length_drop]; omega
      simp only [encodeCharLoopGo, chunkEncodeSpec, if_pos hbig, if_neg hlen]
      rw [ih s (r + 255) fE fC (by omega) (by omega) (by omega) (by omega)]
      simp [sliceL, List.drop_drop, Nat.add_comm r 255]
    · have hlen : (s.drop r).length ≤ 255 := by
        simp only [List.length_drop]; omega
      have hmod : (s.length - r) % 256 = s.length - r := Nat.mod_eq_of_lt (by omega)
      simp only [encodeCharLoopGo, chunkEncodeSpec, if_neg hbig, if_pos hr, if_pos hlen,
        List.length_drop, hmod]
      rw [if_pos (by omega : s.length - r ≤ 255)]

set_option maxRecDepth 8000 in
/-- C9: the character-string wire length is `len + ceil(len/255)` (1 for
the empty string); `EncodeCharacterStr` (src/dns/standard.go:198-220)
emits successive chunks of at most 255 bytes, each prefixed by its own
length byte; in particular a 300-byte string encodes as a 255-byte chunk
followed by a 45-byte chunk with wire length 302, and the empty string
encodes to the single byte 0x00. -/
theorem c9_character_string_codec :
    (∀ s : List Nat, GetCharacterStrWireLen s =
      if s = [] then 1 else s.length + (s.length + 254) / 255) ∧
    (∀ s : List Nat, EncodeCharacterStr s = chunkEncodeSpec (s.length + 1) s) ∧
    EncodeCharacterStr (List.replicate 300 7) =
      255 :: List.replicate 255 7 ++ 45 :: List.replicate 45 7 ∧
    GetCharacterStrWireLen (List.replicate 300 7) = 302 ∧
    EncodeCharacterStr [] = [0] := by
  have hgen : ∀ s : List Nat, EncodeCharacterStr s = chunkEncodeSpec (s.length + 1) s := by
    intro s
    by_cases hs : s = []
    · subst hs
      simp [EncodeCharacterStr, chunkEncodeSpec]
    · have h1 : 0 < s.length := List.length_pos.mpr hs
      have h2 := encodeCharLoopGo_eq_chunk s.length s 0 (s.length + 1) (s.length + 1)
        h1 (by omega) (by omega) (by omega)
      simpa [EncodeCharacterStr, show ¬ s.length = 0 by omega] using h2
  refine ⟨?_, hgen, by decide, by decide, by decide⟩
  intro s
  cases s with
  | nil => simp [GetCharacterStrWireLen]
  | cons a t => simp [GetCharacterStrWireLen]

/-- C6: contrary to the claim, a buffer whose last readable byte begins a
two-byte compression pointer does NOT yield a typed truncation error:
`DecodeDomainNameFromBuffer` (src/dns/standard.go:143-186) reads the
pointer's second byte `data[offset+nameLength+1]` without any bounds
check, an out-of-range access.  On the one-byte buffer `[0xC0]` at
offset 0 the outcome is the runtime panic, not the typed error, for any
amount of fuel. -/
theorem c6_truncated_pointer_is_not_typed_error :
    ∀ fuel, DecodeDomainNameFromBuffer (fuel + 2) [192] 0 = DecFromBufResult.crash :=
  fun _ => rfl

/-- C8 counterexample: `RSASHA1.Sign` does not produce a PKCS#1 v1.5
signature whose hash identifier matches the SHA-1 digest it computes —
it passes the crypto.SHA256 identifier, and the signing call therefore
rejects the 20-byte digest and errors, already on the one-byte input. -/
theorem c8_counterexample : RSASHA1Sign [0] [0] = SigResult.err := by
  decide

/-- C8 (amended): RSA-SHA256 and RSA-SHA512 digest with the hash their
name implies and pass that same identifier to PKCS#1 v1.5 signing;
RSA-SHA1 digests with SHA-1 but passes the SHA-256 identifier, so its
signing call always returns an error instead of a signature. -/
theorem c8_rsa_variants_hash_use :
    ∀ data privKey : List Nat,
      RSASHA256Sign data privKey = SigResult.ok .sha256 privKey ⟨.sha256, data⟩ ∧
      RSASHA512Sign data privKey = SigResult.ok .sha512 privKey ⟨.sha512, data⟩ ∧
      RSASHA1Sign data privKey = SigResult.err := by
  intro data privKey
  refine ⟨?_, ?_, ?_⟩ <;> simp [RSASHA256Sign, RSASHA512Sign, RSASHA1Sign,
    rsaSignPKCS1v15, hashSize]

/-- C10: `GetDomainNameWireLen` reads the last byte of its input
unconditionally, so it and both encoders built on it crash on the empty
name (out-of-range access), while every non-empty name gets a length and
an encoding without crashing. -/
theorem c10_empty_name_crashes :
    GetDomainNameWireLen [] = none ∧
    EncodeDomainName [] = none ∧
    (∀ buffer, EncodeDomainNameToBuffer [] buffer = .crash) ∧
    (∀ name : List Nat, name ≠ [] →
      (GetDomainNameWireLen name).isSome ∧ (EncodeDomainName name).isSome ∧
      ∀ buffer, EncodeDomainNameToBuffer name buffer ≠ .crash) := by
  refine ⟨rfl, rfl, fun buffer => rfl, ?_⟩
  intro name hname
  obtain ⟨b, hb⟩ := Option.isSome_iff_exists.mp (List.getLast?_isSome.mpr hname)
  have hwl : (GetDomainNameWireLen name).isSome := by
    simp only [GetDomainNameWireLen, hb]
    split
    · split <;> simp
    · simp
  obtain ⟨w, hw⟩ := Option.isSome_iff_exists.mp hwl
  refine ⟨hwl, ?_, ?_⟩
  · simp only [EncodeDomainName, hw]
    split
    · simp
    · split <;> simp
  · intro buffer
    simp only [EncodeDomainNameToBuffer, hw]
    split
    · simp
    · split
      · simp
      · split <;> simp

/-- C10 witness: the one-byte name "a" has a wire length and an
encoding, and encoding it into a buffer never crashes. -/
theorem c10_witness :
    ([97] : List Nat) ≠ [] ∧
    (GetDomainNameWireLen [97]).isSome ∧ (EncodeDomainName [97]).isSome ∧
    EncodeDomainNameToBuffer [97] [0, 0, 0] ≠ .crash := by
  have h : ([97] : List Nat) ≠ [] := by decide
  have := c10_empty_name_crashes.2.2.2 [97] h
  exact ⟨h, this.1, this.2.1, this.2.2 [0, 0, 0]⟩

theorem CreateDNSSECMat_shape (env : CryptoEnv) (r : Nat) (conf : DNSSECConfig)
    (zoneName : List Nat) (mat : DNSSECMaterial)
    (h : CreateDNSSECMat env r conf zoneName = some mat) :
    mat.DNSKEYRespSec.length = 3 ∧
    mat.DNSKEYRespSec.map (fun rr => rr.Typ) =
      [DNSRRTypeDNSKEY, DNSRRTypeDNSKEY, DNSRRTypeRRSIG] ∧
    ∀ rr ∈ mat.DNSKEYRespSec, rr.Name = zoneName := by
  simp only [CreateDNSSECMat] at h
  split at h
  · exact absurd h (by simp)
  · split at h
    · exact absurd h (by simp)
    · rw [Option.some.injEq] at h
      subst h
      refine ⟨rfl, rfl, ?_⟩
      intro rr hrr
      simp at hrr
      rcases hrr with h | h | h <;> rw [h]

/-- C3: a DNSKEY query for an uncached zone materializes that zone's key
material exactly once (one map insertion, one draw of fresh key
randomness) and answers with the material's cached 3-record section —
zone-signing key, key-signing key, self-signature — with the answer
count 3 and response code no-error; repeating the query leaves the state
untouched and returns the identical response, keys and signature
byte-for-byte, with no regeneration. -/
theorem c3_dnskey_materialize_and_cache :
    ∀ (env : CryptoEnv) (d : DNSSECResponserConf) (st : DNSSECState) (q : QueryInfo)
      (q0 : DNSQuestion) (rest : List DNSQuestion) (mat : DNSSECMaterial),
      q.DNS.Question = q0 :: rest → q0.Typ = DNSRRTypeDNSKEY →
      st.map q0.Name = none →
      CreateDNSSECMat env st.ctr d.DNSSECConf q0.Name = some mat →
      mat.DNSKEYRespSec.length = 3 ∧
      mat.DNSKEYRespSec.map (fun rr => rr.Typ) =
        [DNSRRTypeDNSKEY, DNSRRTypeDNSKEY, DNSRRTypeRRSIG] ∧
      Response env d st q = some
        ({ InitResp d q with
            DNS := { (InitResp d q).DNS with
              Answer := mat.DNSKEYRespSec
              Header := { (InitResp d q).DNS.Header with
                ANCount := 3
                RCode := DNSResponseCodeNoErr } } },
          ⟨fun n => if n = q0.Name then some mat else st.map n, st.ctr + 1⟩) ∧
      Response env d
          ⟨fun n => if n = q0.Name then some mat else st.map n, st.ctr + 1⟩ q = some
        ({ InitResp d q with
            DNS := { (InitResp d q).DNS with
              Answer := mat.DNSKEYRespSec
              Header := { (InitResp d q).DNS.Header with
                ANCount := 3
                RCode := DNSResponseCodeNoErr } } },
          ⟨fun n => if n = q0.Name then some mat else st.map n, st.ctr + 1⟩) := by
  intro env d st q q0 rest mat hq hty hmap hc
  have hshape := CreateDNSSECMat_shape env st.ctr d.DNSSECConf q0.Name mat hc
  refine ⟨hshape.1, hshape.2.1, ?_, ?_⟩
  · simp only [Response, hq, hty, if_pos, hmap, hc]
    simp [hshape.1]
  · simp only [Response, hq, hty, if_pos]
    simp [hshape.1]

/-- C3 witness: on the concrete oracle, configuration and the previously
unseen zone "e", the DNSKEY query materializes a 3-record answer
section. -/
theorem c3_witness :
    ((CreateDNSSECMat testEnv 0 testConfAAFalse.DNSSECConf [101]).getD
      zeroDNSSECMaterial).DNSKEYRespSec.length = 3 :=
  (c3_dnskey_materialize_and_cache testEnv testConfAAFalse emptyState
    (testQuery [101] DNSRRTypeDNSKEY) ⟨[101], DNSRRTypeDNSKEY, DNSClassIN⟩ []
    ((CreateDNSSECMat testEnv 0 testConfAAFalse.DNSSECConf [101]).getD zeroDNSSECMaterial)
    rfl rfl rfl rfl).1

/-- C5 counterexample: with a configured default response whose
authoritative-answer flag is false and recursion-desired true, a query
is answered (no error) with authoritative-answer false and
recursion-desired true — `Response` does not set these flags, it
inherits them from the configuration, contradicting the claim that every
answered query has authoritative-answer true and recursion flags
false. -/
theorem c5_counterexample :
    (Response testEnv testConfAAFalse emptyState (testQuery [101] DNSRRTypeDNSKEY)).map
      (fun p => (p.1.DNS.Header.AA, p.1.DNS.Header.RD, p.1.DNS.Header.RCode)) =
      some (false, true, 0) := by
  rfl

/-- C5 (amended): every response `Response` actually returns preserves
the query's transaction id, question count and question section
verbatim, sets the answer count to the number of answer records reduced
modulo 2^16 (equal to the count itself for the 2- or 3-record sections
this responser builds), sets the response code to no-error, and carries
the authoritative-answer / recursion-desired / recursion-available flags
unchanged from the configured default response header (the documented
example configuration sets authoritative-answer true and the recursion
flags false). -/
theorem c5_header_fields :
    ∀ (env : CryptoEnv) (d : DNSSECResponserConf) (st : DNSSECState) (q : QueryInfo)
      (r : ResponseInfo) (st2 : DNSSECState),
      Response env d st q = some (r, st2) →
      r.DNS.Header.ID = q.DNS.Header.ID ∧
      r.DNS.Header.QDCount = q.DNS.Header.QDCount ∧
      r.DNS.Question = q.DNS.Question ∧
      r.DNS.Header.ANCount = r.DNS.Answer.length % 65536 ∧
      r.DNS.Header.AA = d.DefaultResp.DNS.Header.AA ∧
      r.DNS.Header.RD = d.DefaultResp.DNS.Header.RD ∧
      r.DNS.Header.RA = d.DefaultResp.DNS.Header.RA ∧
      r.DNS.Header.RCode = DNSResponseCodeNoErr := by
  intro env d st q r st2 h
  simp only [Response] at h
  split at h
  · exact absurd h (by simp)
  · split at h
    · -- DNSKEY branch
      split at h
      · exact absurd h (by simp)
      · rw [Option.some.injEq, Prod.mk.injEq] at h
        obtain ⟨h1, _⟩ := h
        subst h1
        simp [InitResp]
    · split at h
      · -- DS branch
        split at h
        · exact absurd h (by simp)
        · split at h
          · split at h
            · exact absurd h (by simp)
            · split at h
              · exact absurd h (by simp)
              · split at h
                · exact absurd h (by simp)
                · rw [Option.some.injEq, Prod.mk.injEq] at h
                  obtain ⟨h1, _⟩ := h
                  subst h1
                  simp [InitResp]
          · exact absurd h (by simp)
      · -- default branch
        split at h
        · exact absurd h (by simp)
        · split at h
          · exact absurd h (by simp)
          · split at h
            · exact absurd h (by simp)
            · rw [Option.some.injEq, Prod.mk.injEq] at h
              obtain ⟨h1, _⟩ := h
              subst h1
              simp [InitResp]

/-- C5 witness: the amended header discipline holds on the concrete
query, with the (deliberately non-authoritative) configured flags. -/
theorem c5_witness :
    ((Response testEnv testConfAAFalse emptyState
        (testQuery [101] DNSRRTypeDNSKEY)).getD junkPair).1.DNS.Header.ID =
      (testQuery [101] DNSRRTypeDNSKEY).DNS.Header.ID ∧
    ((Response testEnv testConfAAFalse emptyState
        (testQuery [101] DNSRRTypeDNSKEY)).getD junkPair).1.DNS.Header.QDCount =
      (testQuery [101] DNSRRTypeDNSKEY).DNS.Header.QDCount ∧
    ((Response testEnv testConfAAFalse emptyState
        (testQuery [101] DNSRRTypeDNSKEY)).getD junkPair).1.DNS.Question =
      (testQuery [101] DNSRRTypeDNSKEY).DNS.Question ∧
    ((Response testEnv testConfAAFalse emptyState
        (testQuery [101] DNSRRTypeDNSKEY)).getD junkPair).1.DNS.Header.ANCount =
      ((Response testEnv testConfAAFalse emptyState
        (testQuery [101] DNSRRTypeDNSKEY)).getD junkPair).1.DNS.Answer.length % 65536 ∧
    ((Response testEnv testConfAAFalse emptyState
        (testQuery [101] DNSRRTypeDNSKEY)).getD junkPair).1.DNS.Header.AA =
      testConfAAFalse.DefaultResp.DNS.Header.AA ∧
    ((Response testEnv testConfAAFalse emptyState
        (testQuery [101] DNSRRTypeDNSKEY)).getD junkPair).1.DNS.Header.RD =
      testConfAAFalse.DefaultResp.DNS.Header.RD ∧
    ((Response testEnv testConfAAFalse emptyState
        (testQuery [101] DNSRRTypeDNSKEY)).getD junkPair).1.DNS.Header.RA =
      testConfAAFalse.DefaultResp.DNS.Header.RA ∧
    ((Response testEnv testConfAAFalse emptyState
        (testQuery [101] DNSRRTypeDNSKEY)).getD junkPair).1.DNS.Header.RCode =
      DNSResponseCodeNoErr :=
  c5_header_fields testEnv testConfAAFalse emptyState (testQuery [101] DNSRRTypeDNSKEY)
    _ _ rfl

/-- C4 counterexample: with the child zone "c.p" cached and its parent
"p" absent, the DS query for "c.p" answers successfully (2 records,
no-error) while the parent "p" remains unmaterialized afterwards — the
DS branch performs no materialization, contradicting the claim that it
"materializes N's parent zone if absent". -/
theorem c4_counterexample :
    (Response testEnv testConfAAFalse childOnlyState (testQuery [99, 46, 112] DNSRRTypeDS)).map
      (fun p => (p.1.DNS.Header.ANCount, p.1.DNS.Header.RCode, p.2.map [112])) =
      some (2, 0, none) := by
  rfl

/-- C4 (amended): a DS query for a name N with cached key material
answers [DS record, RRSIG record] for N with answer count 2 and
no-error, extracting N's key-signing key (the second cached DNSKEY
record) — but it does NOT materialize N's parent: the state is returned
unchanged, and the signature claims whatever material the cache holds
for the parent name (the zero material — zero key tag, empty key —
when the parent is absent).  A DS query for a name with no cached entry
crashes on the nil answer section (the documented precondition) rather
than silently succeeding. -/
theorem c4_ds_uses_cached_parent_material :
    (∀ (env : CryptoEnv) (d : DNSSECResponserConf) (st : DNSSECState) (q : QueryInfo)
      (q0 : DNSQuestion) (rest : List DNSQuestion) (r : ResponseInfo) (st2 : DNSSECState),
      q.DNS.Question = q0 :: rest → q0.Typ = DNSRRTypeDS →
      Response env d st q = some (r, st2) →
      st2 = st ∧
      r.DNS.Answer.map (fun rr => rr.Typ) = [DNSRRTypeDS, DNSRRTypeRRSIG] ∧
      r.DNS.Answer.map (fun rr => rr.Name) = [q0.Name, q0.Name] ∧
      r.DNS.Header.ANCount = 2 ∧
      r.DNS.Header.RCode = DNSResponseCodeNoErr ∧
      (r.DNS.Answer.getLast?).map (fun rr => rrsigTagSigner rr.RData) =
        some (some
          (((st.map (GetUpperDomainName q0.Name)).getD zeroDNSSECMaterial).ZSKTag % 65536,
            GetUpperDomainName q0.Name))) ∧
    (∀ (env : CryptoEnv) (d : DNSSECResponserConf) (st : DNSSECState) (q : QueryInfo)
      (q0 : DNSQuestion) (rest : List DNSQuestion),
      q.DNS.Question = q0 :: rest → q0.Typ = DNSRRTypeDS →
      st.map q0.Name = none →
      Response env d st q = none) := by
  constructor
  · intro env d st q q0 rest r st2 hq hty h
    simp only [Response, hq] at h
    split at h
    next habs => rw [hty] at habs; exact absurd habs (by decide)
    next =>
      split at h
      next => exact absurd h (by simp)
      next kskRR hksk =>
        split at h
        next kRDATA hrdata =>
          split at h
          next => exact absurd h (by simp)
          next ds hds =>
            split at h
            next => exact absurd h (by simp)
            next sig hsig =>
              split at h
              next => exact absurd h (by simp)
              next ssz hssz =>
                rw [Option.some.injEq, Prod.mk.injEq] at h
                obtain ⟨h1, h2⟩ := h
                subst h1
                subst h2
                refine ⟨rfl, rfl, rfl, rfl, rfl, ?_⟩
                simp only [GenerateRRSIG] at hsig
                split at hsig
                next => exact absurd hsig (by simp)
                next s hs =>
                  rw [Option.some.injEq] at hsig
                  subst hsig
                  rfl
        next => exact absurd h (by simp)
  · intro env d st q q0 rest hq hty hmap
    simp only [Response, hq]
    rw [if_neg (by rw [hty]; decide), if_pos (by rw [hty])]
    simp [hmap, zeroDNSSECMaterial]

/-- C4 witness: on the concrete state caching only the child "c.p", the
DS query answers [DS, RRSIG] with the state unchanged and the signature
claiming the parent's (absent, hence zero) zone-signing key; and on the
empty cache the same query crashes instead of answering. -/
theorem c4_witness :
    (((Response testEnv testConfAAFalse childOnlyState
          (testQuery [99, 46, 112] DNSRRTypeDS)).getD junkPair).2 = childOnlyState ∧
      (((Response testEnv testConfAAFalse childOnlyState
          (testQuery [99, 46, 112] DNSRRTypeDS)).getD junkPair).1.DNS.Answer.map
        (fun rr => rr.Typ)) = [DNSRRTypeDS, DNSRRTypeRRSIG]) ∧
    Response testEnv testConfAAFalse emptyState (testQuery [99, 46, 112] DNSRRTypeDS) =
      none := by
  constructor
  · have h := c4_ds_uses_cached_parent_material.1 testEnv testConfAAFalse childOnlyState
      (testQuery [99, 46, 112] DNSRRTypeDS) ⟨[99, 46, 112], DNSRRTypeDS, DNSClassIN⟩ []
      _ _ rfl rfl rfl
    exact ⟨h.1, h.2.1⟩
  · exact c4_ds_uses_cached_parent_material.2 testEnv testConfAAFalse emptyState
      (testQuery [99, 46, 112] DNSRRTypeDS) ⟨[99, 46, 112], DNSRRTypeDS, DNSClassIN⟩ []
      rfl rfl rfl

end GoDNS
